import Mathlib

/-!
# redis-pulse-monitor: the monitor's failure-detection state machine

A shallow embedding of `monitor.go`, `agent.go` and `structs.go`.

* `time.Time` values (always UTC with the monotonic reading stripped, as
  produced by `time.Now().UTC()`) are instants, modelled as `Int`; the zero
  value `time.Time{}` is `0`.
* `time.Duration` is an `int64` count of nanoseconds, modelled as `Int` with
  explicit two's-complement wrapping (`wrap64`).
* Go maps with string keys are association lists read by first match
  (`GoMap`); reading a missing key yields the zero value, as in Go.
* The collaborators that are not code of this repository (`encoding/json`,
  `time.Time.String`) are parameters, collected in `Extern`; for the round trip
  of the wire format the codec is also modelled concretely (`jsonMarshal`,
  `jsonUnmarshal`, instance `jsonExtern`).
* Everything a method hands to a collaborator (event buses, the Redis client)
  is returned as a list of `Event`s next to the new monitor state.
-/

set_option linter.dupNamespace false

namespace PulseMonitor

/-! ## Machine integers and time -/

/-- Two's-complement wrapping of an integer into the `int64` range. -/
def wrap64 (x : Int) : Int := (x + 2 ^ 63) % 2 ^ 64 - 2 ^ 63

/-- A `time.Duration`: nanoseconds. -/
abbrev Duration := Int

/-- The constant `time.Second`. -/
def Second : Duration := 1000000000

/-- An instant (`time.Time` in UTC without monotonic reading). -/
abbrev Time := Int

/-- The zero value `time.Time{}`. -/
def zeroTime : Time := 0

/-! ## structs.go -/

abbrev PulseMessageType := String

def PulseMessagePing : PulseMessageType := "ping"
def PulseMessagePong : PulseMessageType := "pong"
def PulseMessageError : PulseMessageType := "error"
def PulseMessageInfo : PulseMessageType := "info"

structure MonitorConfig where
  PulseTopic : String
  PulseTick : Duration
  MaxWaitResponse : Duration
deriving DecidableEq, Repr

/-- The zero value `MonitorConfig{}`. -/
def MonitorConfig.zero : MonitorConfig :=
  { PulseTopic := "", PulseTick := 0, MaxWaitResponse := 0 }

structure AgentResult where
  Name : String
  Active : Bool
  LastSeen : Time
deriving DecidableEq, Repr

/-- The zero value `AgentResult{}`, which a Go map read returns for a missing key. -/
def AgentResult.zero : AgentResult :=
  { Name := "", Active := false, LastSeen := zeroTime }

structure Message where
  Sender : String
  /-- The field `Type` of the source (a reserved word here). -/
  MsgType : PulseMessageType
  Message : String
deriving DecidableEq, Repr

/-! ## Go maps keyed by strings -/

/-- A Go `map[string]V`: an association list read by first match. -/
abbrev GoMap (V : Type) := List (String × V)

/-- The two-result read `v, ok := m[k]`. -/
def GoMap.lookup {V : Type} : GoMap V → String → Option V
  | [], _ => none
  | (k1, v) :: rest, k => if k1 = k then some v else GoMap.lookup rest k

/-- The `ok` of `_, ok := m[k]`. -/
def GoMap.contains {V : Type} (m : GoMap V) (k : String) : Bool :=
  (GoMap.lookup m k).isSome

/-- The one-result read `m[k]`, with the zero value `z` for a missing key. -/
def GoMap.getD {V : Type} (m : GoMap V) (k : String) (z : V) : V :=
  (GoMap.lookup m k).getD z

/-- The assignment `m[k] = v`. -/
def GoMap.set {V : Type} : GoMap V → String → V → GoMap V
  | [], k, v => [(k, v)]
  | (k1, v1) :: rest, k, v =>
    if k1 = k then (k, v) :: rest else (k1, v1) :: GoMap.set rest k v

/-- The keys of the map, in storage order. -/
def GoMap.keys {V : Type} (m : GoMap V) : List String := m.map Prod.fst

/-! ## Collaborators and effects -/

/-- The library functions the monitor calls. -/
structure Extern where
  /-- Models `json.Marshal` on a `Message`: the bytes, or the error text. -/
  marshal : Message → Except String String
  /-- Models `json.Unmarshal` into a fresh `Message`: `none` when it returns an error. -/
  unmarshal : String → Option Message
  /-- Models `time.Time.String`. -/
  render : Time → String

/-- What a method hands to its collaborators. -/
inductive Event where
  | LostEvent (batch : List AgentResult)
  | FoundEvent (batch : List AgentResult)
  | ErrorEvent (msg : Message)
  | InfoEvent (msg : Message)
  | Publish (topic : String) (payload : String)
deriving DecidableEq, Repr

/-! ## monitor.go -/

/-- The data fields of `Monitor` (client, context and event buses are collaborators). -/
structure Monitor where
  conf : MonitorConfig
  lastPing : Time
  agentNames : List String
  agentsWaitRoom : GoMap Time
  results : GoMap AgentResult
deriving DecidableEq, Repr

/-- The defaulting of `conf[0]` at the head of `NewMonitor`. -/
def effectiveConf (conf : List MonitorConfig) : MonitorConfig :=
  let c0 := match conf with
    | [] => MonitorConfig.zero
    | c :: _ => c
  let c1 := if c0.PulseTopic = "" then { c0 with PulseTopic := "pulse" } else c0
  let c2 := if c1.PulseTick = 0 then { c1 with PulseTick := 5 * Second } else c1
  if c2.MaxWaitResponse = 0 ∨ c2.MaxWaitResponse ≥ c2.PulseTick then
    let c3 := { c2 with MaxWaitResponse := wrap64 (c2.PulseTick - 1 * Second) }
    if c3.MaxWaitResponse < 0 then { c3 with MaxWaitResponse := c3.PulseTick } else c3
  else c2

/-- The loop of `NewMonitor` that fills `results`. -/
def initResults : List String → GoMap AgentResult → GoMap AgentResult
  | [], results => results
  | agentName :: rest, results =>
    initResults rest
      (GoMap.set results agentName { Name := agentName, Active := true, LastSeen := zeroTime })

def NewMonitor (agentNames : List String) (conf : List MonitorConfig) : Monitor :=
  { conf := effectiveConf conf
    lastPing := zeroTime
    agentNames := agentNames
    agentsWaitRoom := []
    results := initResults agentNames [] }

def GetAgentNames (m : Monitor) : List String := m.agentNames

def GetResultsMap (m : Monitor) : GoMap AgentResult := m.results

/-- The loop of `isValidAgentName`. -/
def isValidAgentNameLoop : List String → String → Bool
  | [], _ => false
  | agentName :: rest, name => if agentName = name then true else isValidAgentNameLoop rest name

def isValidAgentName (m : Monitor) (name : String) : Bool :=
  isValidAgentNameLoop m.agentNames name

/-- `pingAgents`, with `now` the reading of `time.Now().UTC()`. -/
def pingAgents (x : Extern) (m : Monitor) (now : Time) : Monitor × List Event :=
  let m1 := { m with lastPing := now }
  let msg : Message :=
    { Sender := "ping", MsgType := PulseMessagePing, Message := x.render m1.lastPing }
  match x.marshal msg with
  | Except.error err =>
    (m1, [Event.ErrorEvent { Sender := "self", MsgType := PulseMessageError, Message := err }])
  | Except.ok msgStr =>
    ({ m1 with agentsWaitRoom := [] }, [Event.Publish m1.conf.PulseTopic msgStr])

/-- `processMessage`, with `now` the reading of `time.Now().UTC()` at the final assignment. -/
def processMessage (x : Extern) (m : Monitor) (payload : String) (now : Time) :
    Monitor × List Event :=
  match x.unmarshal payload with
  | none =>
    (m, [Event.ErrorEvent { Sender := "unknown", MsgType := PulseMessageError, Message := payload }])
  | some msg =>
    if !isValidAgentName m msg.Sender then (m, [])
    else if msg.MsgType = PulseMessageError then (m, [Event.ErrorEvent msg])
    else if msg.MsgType = PulseMessagePing then (m, [])
    else if msg.MsgType = PulseMessageInfo then (m, [Event.InfoEvent msg])
    else if msg.MsgType ≠ PulseMessagePong then (m, [])
    else if msg.Message ≠ x.render m.lastPing then (m, [])
    else ({ m with agentsWaitRoom := GoMap.set m.agentsWaitRoom msg.Sender now }, [])

/-- The state of the loop of `checkAgents`. -/
structure CheckState where
  results : GoMap AgentResult
  losts : List AgentResult
  founds : List AgentResult
deriving DecidableEq, Repr

/-- One iteration of the loop of `checkAgents`. -/
def checkAgent (waitRoom : GoMap Time) (s : CheckState) (agentName : String) : CheckState :=
  if !GoMap.contains waitRoom agentName then
    if !(GoMap.getD s.results agentName AgentResult.zero).Active then s
    else
      let result := { GoMap.getD s.results agentName AgentResult.zero with Active := false }
      { s with results := GoMap.set s.results agentName result, losts := s.losts ++ [result] }
  else
    let changed := !(GoMap.getD s.results agentName AgentResult.zero).Active
    let result :=
      { GoMap.getD s.results agentName AgentResult.zero with
        Active := true, LastSeen := GoMap.getD waitRoom agentName zeroTime }
    let s1 := { s with results := GoMap.set s.results agentName result }
    if changed then { s1 with founds := s1.founds ++ [result] } else s1

/-- The loop of `checkAgents` over `m.agentNames`. -/
def checkAgentsLoop (waitRoom : GoMap Time) : List String → CheckState → CheckState
  | [], s => s
  | agentName :: rest, s => checkAgentsLoop waitRoom rest (checkAgent waitRoom s agentName)

/-- The final state of the loop of `checkAgents`, started with empty batches. -/
def checkAgentsRun (m : Monitor) : CheckState :=
  checkAgentsLoop m.agentsWaitRoom m.agentNames { results := m.results, losts := [], founds := [] }

def checkAgents (m : Monitor) : Monitor × List Event :=
  let s := checkAgentsRun m
  ({ m with results := s.results },
    (if s.losts.length > 0 then [Event.LostEvent s.losts] else []) ++
    (if s.founds.length > 0 then [Event.FoundEvent s.founds] else []))

/-- The record the transition table assigns to a name whose record was `r`. -/
def reconciled (waitRoom : GoMap Time) (r : AgentResult) (agentName : String) : AgentResult :=
  if GoMap.contains waitRoom agentName then
    { r with Active := true, LastSeen := GoMap.getD waitRoom agentName zeroTime }
  else { r with Active := false }

/-! ## Runs of the monitor -/

/-- One call on the monitor, with the clock reading it makes. -/
inductive Op where
  | ping (now : Time)
  | message (payload : String) (now : Time)
  | check
deriving DecidableEq, Repr

def step (x : Extern) (m : Monitor) : Op → Monitor × List Event
  | Op.ping now => pingAgents x m now
  | Op.message payload now => processMessage x m payload now
  | Op.check => checkAgents m

/-- The state after a sequence of calls, and everything emitted on the way. -/
def run (x : Extern) : Monitor → List Op → Monitor × List Event
  | m, [] => (m, [])
  | m, op :: ops =>
    ((run x (step x m op).1 ops).1, (step x m op).2 ++ (run x (step x m op).1 ops).2)

/-- The messages of one wait window, each with its receipt time. -/
def processMessages (x : Extern) : Monitor → List (String × Time) → Monitor × List Event
  | m, [] => (m, [])
  | m, pm :: rest =>
    ((processMessages x (processMessage x m pm.1 pm.2).1 rest).1,
      (processMessage x m pm.1 pm.2).2 ++ (processMessages x (processMessage x m pm.1 pm.2).1 rest).2)

/-- One probe cycle: the time of the ping and the messages received before the check. -/
structure Cycle where
  pingTime : Time
  messages : List (String × Time)
deriving DecidableEq, Repr

/-- A cycle: `pingAgents`, the messages of the window, `checkAgents`. -/
def runCycle (x : Extern) (m : Monitor) (c : Cycle) : Monitor × List Event :=
  let p := pingAgents x m c.pingTime
  let q := processMessages x p.1 c.messages
  let r := checkAgents q.1
  (r.1, p.2 ++ q.2 ++ r.2)

/-- The state after each cycle of a sequence, with the events of that cycle. -/
def runCycles (x : Extern) : Monitor → List Cycle → List (Monitor × List Event)
  | _, [] => []
  | m, c :: cs => runCycle x m c :: runCycles x (runCycle x m c).1 cs

/-- The batches of the lost notifications among some events. -/
def lostBatches : List Event → List (List AgentResult)
  | [] => []
  | Event.LostEvent batch :: rest => batch :: lostBatches rest
  | _ :: rest => lostBatches rest

/-- The batches of the found notifications among some events. -/
def foundBatches : List Event → List (List AgentResult)
  | [] => []
  | Event.FoundEvent batch :: rest => batch :: foundBatches rest
  | _ :: rest => foundBatches rest

/-- The names reported lost by some events, with multiplicity. -/
def lostNames (events : List Event) : List String :=
  (lostBatches events).flatten.map AgentResult.Name

/-- The names reported found by some events, with multiplicity. -/
def foundNames (events : List Event) : List String :=
  (foundBatches events).flatten.map AgentResult.Name

/-- Whether a payload decodes to a Pong sent under the name `a`. -/
def isPongFrom (x : Extern) (a : String) (payload : String) : Bool :=
  match x.unmarshal payload with
  | none => false
  | some msg => decide (msg.MsgType = PulseMessagePong) && decide (msg.Sender = a)

/-- Every configured name reads a record that carries that name. -/
def NamesKeyed (names : List String) (results : GoMap AgentResult) : Prop :=
  ∀ n ∈ names, (GoMap.getD results n AgentResult.zero).Name = n

/-! ## The documented configuration rule -/

/-- Subtraction of two `time.Duration` values. -/
def Duration.sub (a b : Duration) : Duration := wrap64 (a - b)

/-- Documented: the topic is "pulse" when empty and the given topic otherwise. -/
def specPulseTopic (given : String) : String := if given = "" then "pulse" else given

/-- Documented: the tick is 5s when zero and the given value otherwise. -/
def specPulseTick (given : Duration) : Duration := if given = 0 then 5 * Second else given

/-- Documented: the grace period is kept when non-zero and strictly below the effective tick,
and otherwise is the tick minus 1s unless that is negative, in which case it is the tick. -/
def specMaxWaitResponse (given tick : Duration) : Duration :=
  if given ≠ 0 ∧ given < tick then given
  else if Duration.sub tick Second < 0 then tick
  else Duration.sub tick Second

/-! ## A concrete instance of the collaborators -/

/-- A small codec: five payloads decode, and the instant `t` renders as `t` strokes. -/
def sampleExtern : Extern where
  marshal := fun msg => Except.ok (msg.Sender ++ "/" ++ msg.MsgType ++ "/" ++ msg.Message)
  unmarshal := fun payload =>
    if payload = "pong-a" then some { Sender := "a", MsgType := "pong", Message := "||" }
    else if payload = "pong-b" then some { Sender := "b", MsgType := "pong", Message := "||" }
    else if payload = "stale-a" then some { Sender := "a", MsgType := "pong", Message := "|" }
    else if payload = "pong-z" then some { Sender := "z", MsgType := "pong", Message := "||" }
    else if payload = "info-z" then some { Sender := "z", MsgType := "info", Message := "hi" }
    else none
  render := fun t => String.mk (List.replicate t.toNat '|')

/-- A state in the middle of a cycle: `a` was lost and has answered, `b` has not. -/
def sampleState : Monitor :=
  { conf := { PulseTopic := "pulse", PulseTick := 5 * Second, MaxWaitResponse := 4 * Second }
    lastPing := 2
    agentNames := ["a", "b"]
    agentsWaitRoom := [("a", 7)]
    results := [("a", { Name := "a", Active := false, LastSeen := 3 }),
                ("b", { Name := "b", Active := true, LastSeen := 4 })] }

/-- The invariant of the loop of `checkAgents` on its batches: records read under their key,
no name twice in a batch, and every collected record agrees with the wait-room. -/
def BatchInv (waitRoom : GoMap Time) (all : List String) (s : CheckState) : Prop :=
  NamesKeyed all s.results ∧
  (s.losts.map AgentResult.Name).Nodup ∧
  (s.founds.map AgentResult.Name).Nodup ∧
  (∀ r ∈ s.losts, GoMap.contains waitRoom r.Name = false ∧
    (GoMap.getD s.results r.Name AgentResult.zero).Active = false) ∧
  (∀ r ∈ s.founds, GoMap.contains waitRoom r.Name = true ∧
    (GoMap.getD s.results r.Name AgentResult.zero).Active = true)

/-! ## The accessors of monitor.go -/

/-- The loop of `GetResults`. -/
def GetResultsLoop : GoMap AgentResult → List AgentResult → List AgentResult
  | [], results => results
  | (_, result) :: rest, results => GetResultsLoop rest (results ++ [result])

def GetResults (m : Monitor) : List AgentResult := GetResultsLoop m.results []

/-- The loop of `GetLostAgentResults`. -/
def GetLostAgentResultsLoop : GoMap AgentResult → List AgentResult → List AgentResult
  | [], agents => agents
  | (_, result) :: rest, agents =>
    if !result.Active then GetLostAgentResultsLoop rest (agents ++ [result])
    else GetLostAgentResultsLoop rest agents

def GetLostAgentResults (m : Monitor) : List AgentResult :=
  GetLostAgentResultsLoop m.results []

/-- The loop of `GetFoundAgentResults`. -/
def GetFoundAgentResultsLoop : GoMap AgentResult → List AgentResult → List AgentResult
  | [], agents => agents
  | (_, result) :: rest, agents =>
    if result.Active then GetFoundAgentResultsLoop rest (agents ++ [result])
    else GetFoundAgentResultsLoop rest agents

def GetFoundAgentResults (m : Monitor) : List AgentResult :=
  GetFoundAgentResultsLoop m.results []

/-- The result map of a monitor whose names are `names`: every key once, the keys are the
configured names, and every record carries its key as name. -/
def ResultsInv (names : List String) (results : GoMap AgentResult) : Prop :=
  (GoMap.keys results).Nodup ∧
  (∀ k, k ∈ GoMap.keys results ↔ k ∈ names) ∧
  (∀ e ∈ results, e.2.Name = e.1)

/-- Whether a call is `checkAgents`. -/
def Op.isCheck : Op → Bool
  | Op.check => true
  | _ => false

/-- Whether a call is `pingAgents`. -/
def Op.isPing : Op → Bool
  | Op.ping _ => true
  | _ => false

/-! ## agent.go -/

/-- The data fields of `Agent` (client, context and event bus are collaborators). -/
structure Agent where
  Name : String
  pulseTopic : String
deriving DecidableEq, Repr

def NewAgent (name : String) (pulseTopic : List String) : Agent :=
  { Name := name
    pulseTopic := match pulseTopic with
      | [] => "pulse"
      | topic :: _ => topic }

/-- The bytes of `msgStr, _ := json.Marshal(msg)`: nil when marshalling fails. -/
def marshalBytes (x : Extern) (msg : Message) : String :=
  match x.marshal msg with
  | Except.ok msgStr => msgStr
  | Except.error _ => ""

/-- `sendMessage`: the publish call it makes, and the error the call returns; `publish` models
`client.Publish(ctx, topic, payload).Err()`, `none` standing for `nil`. -/
def Agent.sendMessage (x : Extern) (publish : String → String → Option String) (a : Agent)
    (message : String) (msgType : PulseMessageType) : List Event × Option String :=
  let msg : Message := { Sender := a.Name, MsgType := msgType, Message := message }
  let msgStr := marshalBytes x msg
  ([Event.Publish a.pulseTopic msgStr], publish a.pulseTopic msgStr)

def Agent.sendPong (x : Extern) (publish : String → String → Option String) (a : Agent)
    (message : String) : List Event × Option String :=
  Agent.sendMessage x publish a message PulseMessagePong

/-- `Agent.processMessage`: everything the agent hands to its collaborators. -/
def Agent.processMessage (x : Extern) (publish : String → String → Option String) (a : Agent)
    (payload : String) : List Event :=
  match x.unmarshal payload with
  | none => []
  | some msg =>
    if msg.MsgType ≠ PulseMessagePing then []
    else
      match Agent.sendPong x publish a msg.Message with
      | (sent, some err) =>
        sent ++ [Event.ErrorEvent { Sender := "self", MsgType := PulseMessageError, Message := err }]
      | (sent, none) => sent

/-- The payloads of the publish calls among some events, with their topics. -/
def published : List Event → List (String × String)
  | [] => []
  | Event.Publish topic payload :: rest => (topic, payload) :: published rest
  | _ :: rest => published rest

/-- The error notifications among some events. -/
def errorEvents : List Event → List Message
  | [] => []
  | Event.ErrorEvent msg :: rest => msg :: errorEvents rest
  | _ :: rest => errorEvents rest

/-! ## The wire format -/

/-- The character `"`. -/
def quoteChar : Char := Char.ofNat 34

/-- The character `\`. -/
def backslashChar : Char := Char.ofNat 92

/-- Modelled from the spec: the text of a JSON string, with `"` and `\` escaped (the library
`encoding/json` is not part of the repository). -/
def jsonEscape : List Char → List Char
  | [] => []
  | c :: cs =>
    if c = quoteChar ∨ c = backslashChar then backslashChar :: c :: jsonEscape cs
    else c :: jsonEscape cs

/-- Modelled from the spec: a JSON string literal. -/
def jsonQuote (s : String) : List Char := quoteChar :: (jsonEscape s.data ++ [quoteChar])

/-- Modelled from the spec: the start of the field `key` of a JSON object, after `lead`. -/
def jsonField (lead : Char) (key : String) : List Char :=
  lead :: quoteChar :: (key.data ++ [quoteChar, ':'])

/-- Modelled from the spec: the wire format of a `Message`, a JSON-shaped object with exactly
the fields `sender`, `type` and `message` (what `json.Marshal` writes for the tags of
`structs.go`). -/
def jsonMarshal (msg : Message) : String :=
  String.mk (jsonField (Char.ofNat 123) "sender" ++ jsonQuote msg.Sender ++
    (jsonField ',' "type" ++ jsonQuote msg.MsgType ++
    (jsonField ',' "message" ++ jsonQuote msg.Message ++ [Char.ofNat 125])))

/-- Modelled from the spec: reads the text of a JSON string up to its closing quote; the flag
says that the previous character was an escaping backslash. Gives the string and the rest. -/
def jsonReadString : Bool → List Char → Option (List Char × List Char)
  | _, [] => none
  | true, c :: cs =>
    if c = quoteChar ∨ c = backslashChar then
      (jsonReadString false cs).map (fun p => (c :: p.1, p.2))
    else none
  | false, c :: cs =>
    if c = quoteChar then some ([], cs)
    else if c = backslashChar then jsonReadString true cs
    else (jsonReadString false cs).map (fun p => (c :: p.1, p.2))

/-- Modelled from the spec: strips the expected text from the head of the input. -/
def jsonExpect : List Char → List Char → Option (List Char)
  | [], input => some input
  | _ :: _, [] => none
  | e :: es, c :: cs => if e = c then jsonExpect es cs else none

/-- Modelled from the spec: reads the field `key` at the head of the input, after `lead`. -/
def jsonReadField (lead : Char) (key : String) (input : List Char) :
    Option (String × List Char) :=
  match jsonExpect (jsonField lead key ++ [quoteChar]) input with
  | none => none
  | some rest => (jsonReadString false rest).map (fun p => (String.mk p.1, p.2))

/-- Modelled from the spec: decoding of the wire format (what `json.Unmarshal` reads back from
the output of `json.Marshal`); any other payload is malformed. -/
def jsonUnmarshal (payload : String) : Option Message :=
  match jsonReadField (Char.ofNat 123) "sender" payload.data with
  | none => none
  | some (sender, rest1) =>
    match jsonReadField ',' "type" rest1 with
    | none => none
    | some (msgType, rest2) =>
      match jsonReadField ',' "message" rest2 with
      | none => none
      | some (message, rest3) =>
        if rest3 = [Char.ofNat 125] then
          some { Sender := sender, MsgType := msgType, Message := message }
        else none

/-- The collaborators with the wire format above as codec. -/
def jsonExtern (render : Time → String) : Extern where
  marshal := fun msg => Except.ok (jsonMarshal msg)
  unmarshal := jsonUnmarshal
  render := render

/-- Renders the instant `t` as `t` strokes. -/
def strokes (t : Time) : String := String.mk (List.replicate t.toNat '|')

/-! ## Lemmas on Go maps -/

theorem GoMap.lookup_set {V : Type} (m : GoMap V) (k k2 : String) (v : V) :
    GoMap.lookup (GoMap.set m k v) k2 = if k = k2 then some v else GoMap.lookup m k2 := by
  induction m with
  | nil => simp [GoMap.set, GoMap.lookup]
  | cons e rest ih =>
    obtain ⟨k1, v1⟩ := e
    by_cases h1 : k1 = k
    · subst h1
      by_cases h2 : k1 = k2 <;> simp [GoMap.set, GoMap.lookup, h2]
    · by_cases h2 : k1 = k2
      · subst h2
        have h3 : ¬ k = k1 := fun h => h1 h.symm
        simp [GoMap.set, GoMap.lookup, h1, h3]
      · simp [GoMap.set, GoMap.lookup, h1, h2, ih]

theorem GoMap.getD_set {V : Type} (m : GoMap V) (k k2 : String) (v z : V) :
    GoMap.getD (GoMap.set m k v) k2 z = if k = k2 then v else GoMap.getD m k2 z := by
  unfold GoMap.getD
  rw [GoMap.lookup_set]
  split <;> rfl

theorem GoMap.contains_set {V : Type} (m : GoMap V) (k k2 : String) (v : V) :
    GoMap.contains (GoMap.set m k v) k2 = (decide (k = k2) || GoMap.contains m k2) := by
  unfold GoMap.contains
  rw [GoMap.lookup_set]
  by_cases h : k = k2 <;> simp [h]

theorem GoMap.contains_iff_mem_keys {V : Type} (m : GoMap V) (k : String) :
    GoMap.contains m k = true ↔ k ∈ GoMap.keys m := by
  induction m with
  | nil => simp [GoMap.contains, GoMap.lookup, GoMap.keys]
  | cons e rest ih =>
    obtain ⟨k1, v1⟩ := e
    by_cases h : k1 = k
    · simp [GoMap.contains, GoMap.lookup, GoMap.keys, h]
    · have h2 : ¬ k = k1 := fun e => h e.symm
      have ih2 : (GoMap.lookup rest k).isSome = true ↔ k ∈ List.map Prod.fst rest := ih
      simp [GoMap.contains, GoMap.lookup, GoMap.keys, h, h2, ih2]

theorem GoMap.getD_of_lookup {V : Type} (m : GoMap V) (k : String) (z v : V)
    (h : GoMap.lookup m k = some v) : GoMap.getD m k z = v := by
  simp [GoMap.getD, h]

theorem GoMap.contains_of_lookup {V : Type} (m : GoMap V) (k : String) (v : V)
    (h : GoMap.lookup m k = some v) : GoMap.contains m k = true := by
  simp [GoMap.contains, h]

theorem GoMap.contains_false_of_lookup {V : Type} (m : GoMap V) (k : String)
    (h : GoMap.lookup m k = none) : GoMap.contains m k = false := by
  simp [GoMap.contains, h]

theorem isValidAgentNameLoop_iff (names : List String) (name : String) :
    isValidAgentNameLoop names name = true ↔ name ∈ names := by
  induction names with
  | nil => simp [isValidAgentNameLoop]
  | cons a rest ih =>
    by_cases h : a = name
    · simp [isValidAgentNameLoop, h]
    · have h2 : ¬ name = a := fun e => h e.symm
      simp [isValidAgentNameLoop, h, h2, ih]

theorem isValidAgentName_iff (m : Monitor) (name : String) :
    isValidAgentName m name = true ↔ name ∈ m.agentNames :=
  isValidAgentNameLoop_iff m.agentNames name

/-! ## The loop of `checkAgents` -/

theorem reconciled_idem (waitRoom : GoMap Time) (r : AgentResult) (n : String) :
    reconciled waitRoom (reconciled waitRoom r n) n = reconciled waitRoom r n := by
  unfold reconciled
  split <;> rfl

theorem reconciled_Name (waitRoom : GoMap Time) (r : AgentResult) (n : String) :
    (reconciled waitRoom r n).Name = r.Name := by
  unfold reconciled
  split <;> rfl

theorem reconciled_Active (waitRoom : GoMap Time) (r : AgentResult) (n : String) :
    (reconciled waitRoom r n).Active = GoMap.contains waitRoom n := by
  unfold reconciled
  by_cases hw : GoMap.contains waitRoom n = true
  · simp [hw]
  · have hw2 : GoMap.contains waitRoom n = false := by simpa using hw
    simp [hw2]

theorem reconciled_LastSeen_of_lookup (waitRoom : GoMap Time) (r : AgentResult) (n : String)
    (t : Time) (h : GoMap.lookup waitRoom n = some t) :
    (reconciled waitRoom r n).LastSeen = t := by
  simp [reconciled, GoMap.contains_of_lookup _ _ _ h, GoMap.getD_of_lookup waitRoom n zeroTime t h]

theorem checkAgent_getD (waitRoom : GoMap Time) (s : CheckState) (n k : String) :
    GoMap.getD (checkAgent waitRoom s n).results k AgentResult.zero =
      if n = k then reconciled waitRoom (GoMap.getD s.results k AgentResult.zero) k
      else GoMap.getD s.results k AgentResult.zero := by
  by_cases hk : n = k
  · subst hk
    unfold checkAgent reconciled
    by_cases hw : GoMap.contains waitRoom n = true
    · by_cases ha : (GoMap.getD s.results n AgentResult.zero).Active = true <;>
        simp [hw, ha, GoMap.getD_set]
    · by_cases ha : (GoMap.getD s.results n AgentResult.zero).Active = true
      · simp [hw, ha, GoMap.getD_set]
      · have ha2 : (GoMap.getD s.results n AgentResult.zero).Active = false := by
          simpa using ha
        simp [hw, ha2]
        rw [← ha2]
  · unfold checkAgent
    by_cases hw : GoMap.contains waitRoom n = true
    · by_cases ha : (GoMap.getD s.results n AgentResult.zero).Active = true <;>
        simp [hw, ha, hk, GoMap.getD_set]
    · by_cases ha : (GoMap.getD s.results n AgentResult.zero).Active = true <;>
        simp [hw, ha, hk, GoMap.getD_set]

theorem checkAgentsLoop_getD (waitRoom : GoMap Time) (names : List String) (s : CheckState)
    (k : String) :
    GoMap.getD (checkAgentsLoop waitRoom names s).results k AgentResult.zero =
      if k ∈ names then reconciled waitRoom (GoMap.getD s.results k AgentResult.zero) k
      else GoMap.getD s.results k AgentResult.zero := by
  induction names generalizing s with
  | nil => simp [checkAgentsLoop]
  | cons n rest ih =>
    rw [checkAgentsLoop, ih, checkAgent_getD]
    by_cases hk : n = k
    · subst hk
      by_cases hr : n ∈ rest <;> simp [hr, reconciled_idem]
    · have hk2 : ¬ k = n := fun e => hk e.symm
      by_cases hr : k ∈ rest <;> simp [hr, hk, hk2]

theorem checkAgents_getD (m : Monitor) (k : String) :
    GoMap.getD (checkAgents m).1.results k AgentResult.zero =
      if k ∈ m.agentNames then
        reconciled m.agentsWaitRoom (GoMap.getD m.results k AgentResult.zero) k
      else GoMap.getD m.results k AgentResult.zero := by
  simp [checkAgents, checkAgentsRun, checkAgentsLoop_getD]

/-- C1: after `checkAgents` the record read for a configured name `n` is active exactly when
`n` is a key of the wait-room; when `n` is in the wait-room its `LastSeen` is the wait-room's
receipt time, and when it is not, its `LastSeen` is the one it had before. -/
theorem checkAgents_transition_table (m : Monitor) (n : String) (hn : n ∈ m.agentNames) :
    ((GoMap.getD (checkAgents m).1.results n AgentResult.zero).Active = true ↔
        GoMap.contains m.agentsWaitRoom n = true) ∧
      (∀ t, GoMap.lookup m.agentsWaitRoom n = some t →
        (GoMap.getD (checkAgents m).1.results n AgentResult.zero).LastSeen = t) ∧
      (GoMap.lookup m.agentsWaitRoom n = none →
        (GoMap.getD (checkAgents m).1.results n AgentResult.zero).LastSeen =
          (GoMap.getD m.results n AgentResult.zero).LastSeen) := by
  have h : GoMap.getD (checkAgents m).1.results n AgentResult.zero =
      reconciled m.agentsWaitRoom (GoMap.getD m.results n AgentResult.zero) n := by
    simp [checkAgents, checkAgentsRun, checkAgentsLoop_getD, hn]
  rw [h]
  refine ⟨?_, ?_, ?_⟩
  · unfold reconciled
    by_cases hw : GoMap.contains m.agentsWaitRoom n = true <;> simp [hw]
  · intro t ht
    have hc := GoMap.contains_of_lookup _ _ _ ht
    have hg := GoMap.getD_of_lookup m.agentsWaitRoom n zeroTime t ht
    simp [reconciled, hc, hg]
  · intro hnone
    have hc := GoMap.contains_false_of_lookup _ _ hnone
    simp [reconciled, hc]

/-- Witness of C1: in `sampleState` only `a` is in the wait-room, received at 7. -/
theorem checkAgents_transition_table_witness :
    ((GoMap.getD (checkAgents sampleState).1.results "a" AgentResult.zero).Active = true ↔
      GoMap.contains sampleState.agentsWaitRoom "a" = true) ∧
    (GoMap.getD (checkAgents sampleState).1.results "a" AgentResult.zero).LastSeen = 7 :=
  ⟨(checkAgents_transition_table sampleState "a" (by decide)).1,
   (checkAgents_transition_table sampleState "a" (by decide)).2.1 7 (by decide)⟩

/-! ## The batches of `checkAgents` -/

theorem checkAgent_losts (waitRoom : GoMap Time) (s : CheckState) (n : String) :
    (checkAgent waitRoom s n).losts =
      if GoMap.contains waitRoom n = false ∧
          (GoMap.getD s.results n AgentResult.zero).Active = true then
        s.losts ++ [{ GoMap.getD s.results n AgentResult.zero with Active := false }]
      else s.losts := by
  unfold checkAgent
  by_cases hw : GoMap.contains waitRoom n = true
  · by_cases ha : (GoMap.getD s.results n AgentResult.zero).Active = true <;> simp [hw, ha]
  · by_cases ha : (GoMap.getD s.results n AgentResult.zero).Active = true <;> simp [hw, ha]

theorem checkAgent_founds (waitRoom : GoMap Time) (s : CheckState) (n : String) :
    (checkAgent waitRoom s n).founds =
      if GoMap.contains waitRoom n = true ∧
          (GoMap.getD s.results n AgentResult.zero).Active = false then
        s.founds ++ [{ GoMap.getD s.results n AgentResult.zero with
          Active := true, LastSeen := GoMap.getD waitRoom n zeroTime }]
      else s.founds := by
  unfold checkAgent
  by_cases hw : GoMap.contains waitRoom n = true
  · by_cases ha : (GoMap.getD s.results n AgentResult.zero).Active = true <;> simp [hw, ha]
  · by_cases ha : (GoMap.getD s.results n AgentResult.zero).Active = true <;> simp [hw, ha]

/-- The records of the lost batch: those already collected, and one for each name of the list
that read active and is absent from the wait-room. -/
theorem mem_checkAgentsLoop_losts (waitRoom : GoMap Time) (names : List String)
    (s : CheckState) (r : AgentResult) :
    r ∈ (checkAgentsLoop waitRoom names s).losts ↔
      r ∈ s.losts ∨ ∃ n ∈ names, (GoMap.getD s.results n AgentResult.zero).Active = true ∧
        GoMap.contains waitRoom n = false ∧
        r = { GoMap.getD s.results n AgentResult.zero with Active := false } := by
  induction names generalizing s with
  | nil => simp [checkAgentsLoop]
  | cons a rest ih =>
    rw [checkAgentsLoop, ih, checkAgent_losts]
    constructor
    · rintro (h | ⟨k, hk, hact, hw, hr⟩)
      · split at h
        · rename_i hc
          rcases List.mem_append.1 h with h1 | h1
          · exact Or.inl h1
          · exact Or.inr ⟨a, List.mem_cons_self _ _, hc.2, hc.1, by simpa using h1⟩
        · exact Or.inl h
      · rw [checkAgent_getD] at hact hr
        by_cases hak : a = k
        · subst hak
          simp [reconciled, hw] at hact
        · simp only [hak, if_false] at hact hr
          exact Or.inr ⟨k, List.mem_cons_of_mem _ hk, hact, hw, hr⟩
    · rintro (h | ⟨k, hk, hact, hw, hr⟩)
      · left
        split
        · exact List.mem_append_left _ h
        · exact h
      · by_cases hak : a = k
        · subst hak
          left
          rw [if_pos ⟨hw, hact⟩]
          exact List.mem_append_right _ (by simp [hr])
        · right
          have hk2 : k ∈ rest := by
            rcases List.mem_cons.1 hk with h1 | h1
            · exact absurd h1.symm hak
            · exact h1
          refine ⟨k, hk2, ?_, hw, ?_⟩
          · rw [checkAgent_getD]; simpa [hak] using hact
          · rw [checkAgent_getD]; simpa [hak] using hr

/-- The records of the found batch: those already collected, and one for each name of the
list that read inactive and is present in the wait-room. -/
theorem mem_checkAgentsLoop_founds (waitRoom : GoMap Time) (names : List String)
    (s : CheckState) (r : AgentResult) :
    r ∈ (checkAgentsLoop waitRoom names s).founds ↔
      r ∈ s.founds ∨ ∃ n ∈ names, (GoMap.getD s.results n AgentResult.zero).Active = false ∧
        GoMap.contains waitRoom n = true ∧
        r = { GoMap.getD s.results n AgentResult.zero with
          Active := true, LastSeen := GoMap.getD waitRoom n zeroTime } := by
  induction names generalizing s with
  | nil => simp [checkAgentsLoop]
  | cons a rest ih =>
    rw [checkAgentsLoop, ih, checkAgent_founds]
    constructor
    · rintro (h | ⟨k, hk, hact, hw, hr⟩)
      · split at h
        · rename_i hc
          rcases List.mem_append.1 h with h1 | h1
          · exact Or.inl h1
          · exact Or.inr ⟨a, List.mem_cons_self _ _, hc.2, hc.1, by simpa using h1⟩
        · exact Or.inl h
      · rw [checkAgent_getD] at hact hr
        by_cases hak : a = k
        · subst hak
          simp [reconciled, hw] at hact
        · simp only [hak, if_false] at hact hr
          exact Or.inr ⟨k, List.mem_cons_of_mem _ hk, hact, hw, hr⟩
    · rintro (h | ⟨k, hk, hact, hw, hr⟩)
      · left
        split
        · exact List.mem_append_left _ h
        · exact h
      · by_cases hak : a = k
        · subst hak
          left
          rw [if_pos ⟨hw, hact⟩]
          exact List.mem_append_right _ (by simp [hr])
        · right
          have hk2 : k ∈ rest := by
            rcases List.mem_cons.1 hk with h1 | h1
            · exact absurd h1.symm hak
            · exact h1
          refine ⟨k, hk2, ?_, hw, ?_⟩
          · rw [checkAgent_getD]; simpa [hak] using hact
          · rw [checkAgent_getD]; simpa [hak] using hr

theorem mem_checkAgentsRun_losts (m : Monitor) (r : AgentResult) :
    r ∈ (checkAgentsRun m).losts ↔
      ∃ n ∈ m.agentNames, (GoMap.getD m.results n AgentResult.zero).Active = true ∧
        GoMap.contains m.agentsWaitRoom n = false ∧
        r = { GoMap.getD m.results n AgentResult.zero with Active := false } := by
  simp [checkAgentsRun, mem_checkAgentsLoop_losts]

theorem mem_checkAgentsRun_founds (m : Monitor) (r : AgentResult) :
    r ∈ (checkAgentsRun m).founds ↔
      ∃ n ∈ m.agentNames, (GoMap.getD m.results n AgentResult.zero).Active = false ∧
        GoMap.contains m.agentsWaitRoom n = true ∧
        r = { GoMap.getD m.results n AgentResult.zero with
          Active := true, LastSeen := GoMap.getD m.agentsWaitRoom n zeroTime } := by
  simp [checkAgentsRun, mem_checkAgentsLoop_founds]

theorem checkAgents_events (m : Monitor) :
    (checkAgents m).2 =
      (if (checkAgentsRun m).losts = [] then [] else [Event.LostEvent (checkAgentsRun m).losts]) ++
      (if (checkAgentsRun m).founds = [] then []
        else [Event.FoundEvent (checkAgentsRun m).founds]) := by
  unfold checkAgents
  cases hl : (checkAgentsRun m).losts <;> cases hf : (checkAgentsRun m).founds <;> simp [hl, hf]

/-- C2: one run of `checkAgents` emits at most one lost and at most one found notification and
nothing else; a lost notification is emitted exactly when some configured name read active
and is absent from the wait-room, and its batch holds exactly the records of those names, set
inactive; a found notification is emitted exactly when some configured name read inactive and
is present in the wait-room, and its batch holds exactly the records of those names, set active
with the wait-room's receipt time as `LastSeen`. -/
theorem checkAgents_batched_notifications (m : Monitor) :
    (lostBatches (checkAgents m).2).length ≤ 1 ∧
    (foundBatches (checkAgents m).2).length ≤ 1 ∧
    (∀ e ∈ (checkAgents m).2, (∃ b, e = Event.LostEvent b) ∨ (∃ b, e = Event.FoundEvent b)) ∧
    ((∃ b, Event.LostEvent b ∈ (checkAgents m).2) ↔
      ∃ n ∈ m.agentNames, (GoMap.getD m.results n AgentResult.zero).Active = true ∧
        GoMap.contains m.agentsWaitRoom n = false) ∧
    (∀ b, Event.LostEvent b ∈ (checkAgents m).2 → ∀ r, r ∈ b ↔
      ∃ n ∈ m.agentNames, (GoMap.getD m.results n AgentResult.zero).Active = true ∧
        GoMap.contains m.agentsWaitRoom n = false ∧
        r = { GoMap.getD m.results n AgentResult.zero with Active := false }) ∧
    ((∃ b, Event.FoundEvent b ∈ (checkAgents m).2) ↔
      ∃ n ∈ m.agentNames, (GoMap.getD m.results n AgentResult.zero).Active = false ∧
        GoMap.contains m.agentsWaitRoom n = true) ∧
    (∀ b, Event.FoundEvent b ∈ (checkAgents m).2 → ∀ r, r ∈ b ↔
      ∃ n ∈ m.agentNames, (GoMap.getD m.results n AgentResult.zero).Active = false ∧
        GoMap.contains m.agentsWaitRoom n = true ∧
        r = { GoMap.getD m.results n AgentResult.zero with
          Active := true, LastSeen := GoMap.getD m.agentsWaitRoom n zeroTime }) := by
  have hL := mem_checkAgentsRun_losts m
  have hF := mem_checkAgentsRun_founds m
  have hev := checkAgents_events m
  generalize (checkAgentsRun m).losts = L at hL hev
  generalize (checkAgentsRun m).founds = F at hF hev
  have hLne : L ≠ [] ↔ ∃ n ∈ m.agentNames,
      (GoMap.getD m.results n AgentResult.zero).Active = true ∧
        GoMap.contains m.agentsWaitRoom n = false := by
    constructor
    · intro hne
      obtain ⟨r, hr⟩ := List.exists_mem_of_ne_nil L hne
      obtain ⟨n, hn, ha, hw, _⟩ := (hL r).1 hr
      exact ⟨n, hn, ha, hw⟩
    · rintro ⟨n, hn, ha, hw⟩
      exact List.ne_nil_of_mem ((hL _).2 ⟨n, hn, ha, hw, rfl⟩)
  have hFne : F ≠ [] ↔ ∃ n ∈ m.agentNames,
      (GoMap.getD m.results n AgentResult.zero).Active = false ∧
        GoMap.contains m.agentsWaitRoom n = true := by
    constructor
    · intro hne
      obtain ⟨r, hr⟩ := List.exists_mem_of_ne_nil F hne
      obtain ⟨n, hn, ha, hw, _⟩ := (hF r).1 hr
      exact ⟨n, hn, ha, hw⟩
    · rintro ⟨n, hn, ha, hw⟩
      exact List.ne_nil_of_mem ((hF _).2 ⟨n, hn, ha, hw, rfl⟩)
  rw [hev, ← hLne, ← hFne]
  by_cases hl : L = [] <;> by_cases hf : F = []
  · simp [hl, hf, lostBatches, foundBatches]
  · refine ⟨?_, ?_, ?_, ?_, ?_, ?_, ?_⟩ <;> simp [hl, hf, lostBatches, foundBatches]
    exact hF
  · refine ⟨?_, ?_, ?_, ?_, ?_, ?_, ?_⟩ <;> simp [hl, hf, lostBatches, foundBatches]
    exact hL
  · refine ⟨?_, ?_, ?_, ?_, ?_, ?_, ?_⟩ <;> simp [hl, hf, lostBatches, foundBatches]
    · exact hL
    · exact hF

/-! ## `processMessage` -/

/-- An accepted Pong is stored under its sender with the receipt time; nothing is emitted. -/
theorem processMessage_accept (x : Extern) (m : Monitor) (payload : String) (now : Time)
    (msg : Message) (hd : x.unmarshal payload = some msg)
    (hp : msg.MsgType = PulseMessagePong) (hs : msg.Sender ∈ m.agentNames)
    (ht : msg.Message = x.render m.lastPing) :
    processMessage x m payload now =
      ({ m with agentsWaitRoom := GoMap.set m.agentsWaitRoom msg.Sender now }, []) := by
  have hv : isValidAgentName m msg.Sender = true := (isValidAgentName_iff m _).2 hs
  have h1 : PulseMessagePong ≠ PulseMessageError := by decide
  have h2 : PulseMessagePong ≠ PulseMessagePing := by decide
  have h3 : PulseMessagePong ≠ PulseMessageInfo := by decide
  simp [processMessage, hd, hv, hp, h1, h2, h3, ht]

/-- Every other payload leaves the whole state as it was. -/
theorem processMessage_reject (x : Extern) (m : Monitor) (payload : String) (now : Time)
    (h : ¬ ∃ msg, x.unmarshal payload = some msg ∧ msg.MsgType = PulseMessagePong ∧
      msg.Sender ∈ m.agentNames ∧ msg.Message = x.render m.lastPing) :
    (processMessage x m payload now).1 = m := by
  unfold processMessage
  cases hd : x.unmarshal payload with
  | none => rfl
  | some msg =>
    simp only
    split_ifs with a1 a2 a3 a4 a5 a6
    all_goals first
      | rfl
      | exact absurd ⟨msg, hd, not_not.1 a5, (isValidAgentName_iff m _).1 (by simpa using a1),
          not_not.1 a6⟩ h

/-- Whatever the payload, `processMessage` touches no field but the wait-room. -/
theorem processMessage_frame (x : Extern) (m : Monitor) (payload : String) (now : Time) :
    (processMessage x m payload now).1.results = m.results ∧
    (processMessage x m payload now).1.agentNames = m.agentNames ∧
    (processMessage x m payload now).1.lastPing = m.lastPing ∧
    (processMessage x m payload now).1.conf = m.conf := by
  by_cases h : ∃ msg, x.unmarshal payload = some msg ∧ msg.MsgType = PulseMessagePong ∧
      msg.Sender ∈ m.agentNames ∧ msg.Message = x.render m.lastPing
  · obtain ⟨msg, hd, hp, hs, ht⟩ := h
    rw [processMessage_accept x m payload now msg hd hp hs ht]
    exact ⟨rfl, rfl, rfl, rfl⟩
  · rw [processMessage_reject x m payload now h]
    exact ⟨rfl, rfl, rfl, rfl⟩

theorem GoMap.set_eq_self_iff {V : Type} (m : GoMap V) (k : String) (v : V) :
    GoMap.set m k v = m ↔ GoMap.lookup m k = some v := by
  induction m with
  | nil => simp [GoMap.set, GoMap.lookup]
  | cons e rest ih =>
    obtain ⟨k1, v1⟩ := e
    by_cases h : k1 = k
    · subst h
      simp [GoMap.set, GoMap.lookup]
      exact eq_comm
    · simp [GoMap.set, GoMap.lookup, h, ih]

/-- C4, as stated, fails: on a fresh monitor for `a` and `b`, after a ping at instant 2 and a
Pong of `a` received at instant 7, a second Pong of `a` is received at the same clock reading 7.
It is a Pong of a configured agent carrying the current token, and processing it leaves the
wait-room exactly as it was. -/
theorem processMessage_accepted_without_change :
    (∃ msg, sampleExtern.unmarshal "pong-a" = some msg ∧ msg.MsgType = PulseMessagePong ∧
      msg.Sender ∈ (processMessage sampleExtern
        (pingAgents sampleExtern (NewMonitor ["a", "b"] []) 2).1 "pong-a" 7).1.agentNames ∧
      msg.Message = sampleExtern.render (processMessage sampleExtern
        (pingAgents sampleExtern (NewMonitor ["a", "b"] []) 2).1 "pong-a" 7).1.lastPing) ∧
    (processMessage sampleExtern
      (processMessage sampleExtern
        (pingAgents sampleExtern (NewMonitor ["a", "b"] []) 2).1 "pong-a" 7).1
      "pong-a" 7).1.agentsWaitRoom =
    (processMessage sampleExtern
      (pingAgents sampleExtern (NewMonitor ["a", "b"] []) 2).1 "pong-a" 7).1.agentsWaitRoom :=
  ⟨⟨{ Sender := "a", MsgType := "pong", Message := "||" }, by decide, by decide, by decide,
    by decide⟩, by decide⟩

/-- C4, amended: `processMessage` changes the wait-room only if the payload decodes to a Pong
whose sender is a configured name and whose message field is the rendering of `lastPing`; for
such a payload the new state is the old one with the wait-room entry of the sender set to the
receipt time and nothing is emitted, so the wait-room differs from the old one exactly when
the sender's entry was not already that receipt time. -/
theorem processMessage_waitRoom_update (x : Extern) (m : Monitor) (payload : String)
    (now : Time) :
    ((processMessage x m payload now).1.agentsWaitRoom ≠ m.agentsWaitRoom →
      ∃ msg, x.unmarshal payload = some msg ∧ msg.MsgType = PulseMessagePong ∧
        msg.Sender ∈ m.agentNames ∧ msg.Message = x.render m.lastPing) ∧
    (∀ msg, x.unmarshal payload = some msg → msg.MsgType = PulseMessagePong →
      msg.Sender ∈ m.agentNames → msg.Message = x.render m.lastPing →
        processMessage x m payload now =
          ({ m with agentsWaitRoom := GoMap.set m.agentsWaitRoom msg.Sender now }, []) ∧
        ((processMessage x m payload now).1.agentsWaitRoom ≠ m.agentsWaitRoom ↔
          GoMap.lookup m.agentsWaitRoom msg.Sender ≠ some now)) := by
  constructor
  · intro hne
    by_contra hno
    exact hne (by rw [processMessage_reject x m payload now hno])
  · intro msg hd hp hs ht
    have hacc := processMessage_accept x m payload now msg hd hp hs ht
    refine ⟨hacc, ?_⟩
    rw [hacc]
    exact not_congr (GoMap.set_eq_self_iff m.agentsWaitRoom msg.Sender now)

/-- C5: a Pong whose message field differs from the rendering of `lastPing` leaves the whole
monitor state unchanged and emits nothing, so the following `checkAgents` gives the same state
and the same notifications as if the Pong had never been received. -/
theorem processMessage_stale_pong_ignored (x : Extern) (m : Monitor) (payload : String)
    (now : Time) (msg : Message) (hd : x.unmarshal payload = some msg)
    (hp : msg.MsgType = PulseMessagePong) (hs : msg.Message ≠ x.render m.lastPing) :
    processMessage x m payload now = (m, []) ∧
      checkAgents (processMessage x m payload now).1 = checkAgents m := by
  have h : processMessage x m payload now = (m, []) := by
    have h1 : PulseMessagePong ≠ PulseMessageError := by decide
    have h2 : PulseMessagePong ≠ PulseMessagePing := by decide
    have h3 : PulseMessagePong ≠ PulseMessageInfo := by decide
    by_cases hv : isValidAgentName m msg.Sender = true <;>
      simp [processMessage, hd, hv, hp, h1, h2, h3, hs]
  exact ⟨h, by rw [h]⟩

/-- Witness of C5: the payload "stale-a" carries the token of instant 1 while `lastPing` is 2. -/
theorem processMessage_stale_pong_ignored_witness :
    processMessage sampleExtern sampleState "stale-a" 9 = (sampleState, []) ∧
      checkAgents (processMessage sampleExtern sampleState "stale-a" 9).1 =
        checkAgents sampleState :=
  processMessage_stale_pong_ignored sampleExtern sampleState "stale-a" 9
    { Sender := "a", MsgType := "pong", Message := "|" } (by decide) (by decide) (by decide)

/-- C6: a well-formed message of any type whose sender is not a configured agent name leaves
the whole monitor state unchanged and emits no notification of any kind. -/
theorem processMessage_unknown_sender_dropped (x : Extern) (m : Monitor) (payload : String)
    (now : Time) (msg : Message) (hd : x.unmarshal payload = some msg)
    (hs : msg.Sender ∉ m.agentNames) :
    processMessage x m payload now = (m, []) := by
  have hv : ¬ isValidAgentName m msg.Sender = true :=
    fun h => hs ((isValidAgentName_iff m _).1 h)
  simp [processMessage, hd, hv]

/-- Witness of C6: `z` is not configured in `sampleState`; its Pong carries the current token. -/
theorem processMessage_unknown_sender_dropped_witness :
    processMessage sampleExtern sampleState "pong-z" 9 = (sampleState, []) :=
  processMessage_unknown_sender_dropped sampleExtern sampleState "pong-z" 9
    { Sender := "z", MsgType := "pong", Message := "||" } (by decide) (by decide)

/-- C7, as stated, fails: after a ping at instant 2 on a fresh monitor for `a` and `b`, two
Pongs of `a` carrying the current token are processed at receipt times 11 and then 12; the
wait-room entry of `a` is then 12, not 11, and `LastSeen` after `checkAgents` is 12, not 11. -/
theorem second_pong_overwrites_first :
    GoMap.lookup
      (processMessage sampleExtern
        (processMessage sampleExtern
          (pingAgents sampleExtern (NewMonitor ["a", "b"] []) 2).1 "pong-a" 11).1
        "pong-a" 12).1.agentsWaitRoom "a" = some 12 ∧
    GoMap.lookup
      (processMessage sampleExtern
        (processMessage sampleExtern
          (pingAgents sampleExtern (NewMonitor ["a", "b"] []) 2).1 "pong-a" 11).1
        "pong-a" 12).1.agentsWaitRoom "a" ≠ some 11 ∧
    (GoMap.getD (checkAgents
      (processMessage sampleExtern
        (processMessage sampleExtern
          (pingAgents sampleExtern (NewMonitor ["a", "b"] []) 2).1 "pong-a" 11).1
        "pong-a" 12).1).1.results "a" AgentResult.zero).LastSeen = 12 ∧
    (GoMap.getD (checkAgents
      (processMessage sampleExtern
        (processMessage sampleExtern
          (pingAgents sampleExtern (NewMonitor ["a", "b"] []) 2).1 "pong-a" 11).1
        "pong-a" 12).1).1.results "a" AgentResult.zero).LastSeen ≠ 11 := by
  decide

/-- C7, amended: the last accepted Pong for a name wins. If two Pongs of a configured agent `a`
carrying the current ping token are processed one after the other at receipt times `t1` then
`t2`, the wait-room entry of `a` after both is `t2`, and after `checkAgents` the record of `a`
is active with `LastSeen = t2`. -/
theorem last_accepted_pong_wins (x : Extern) (m : Monitor) (a p1 p2 : String) (t1 t2 : Time)
    (msg1 msg2 : Message) (ha : a ∈ m.agentNames)
    (hd1 : x.unmarshal p1 = some msg1) (hk1 : msg1.MsgType = PulseMessagePong)
    (hs1 : msg1.Sender = a) (ht1 : msg1.Message = x.render m.lastPing)
    (hd2 : x.unmarshal p2 = some msg2) (hk2 : msg2.MsgType = PulseMessagePong)
    (hs2 : msg2.Sender = a) (ht2 : msg2.Message = x.render m.lastPing) :
    GoMap.lookup
      (processMessage x (processMessage x m p1 t1).1 p2 t2).1.agentsWaitRoom a = some t2 ∧
    (GoMap.getD (checkAgents (processMessage x (processMessage x m p1 t1).1 p2 t2).1).1.results
      a AgentResult.zero).Active = true ∧
    (GoMap.getD (checkAgents (processMessage x (processMessage x m p1 t1).1 p2 t2).1).1.results
      a AgentResult.zero).LastSeen = t2 := by
  have e1 := processMessage_accept x m p1 t1 msg1 hd1 hk1 (hs1 ▸ ha) ht1
  have e2 := processMessage_accept x (processMessage x m p1 t1).1 p2 t2 msg2 hd2 hk2
    (by rw [e1]; exact hs2 ▸ ha) (by rw [e1]; exact ht2)
  have hl : GoMap.lookup
      (processMessage x (processMessage x m p1 t1).1 p2 t2).1.agentsWaitRoom a = some t2 := by
    rw [e2]
    simp [GoMap.lookup_set, hs2]
  have hn : a ∈ (processMessage x (processMessage x m p1 t1).1 p2 t2).1.agentNames := by
    rw [(processMessage_frame x _ p2 t2).2.1, (processMessage_frame x m p1 t1).2.1]
    exact ha
  have hc := checkAgents_getD (processMessage x (processMessage x m p1 t1).1 p2 t2).1 a
  rw [if_pos hn] at hc
  refine ⟨hl, ?_, ?_⟩
  · rw [hc, reconciled_Active]
    exact GoMap.contains_of_lookup _ _ _ hl
  · rw [hc]
    exact reconciled_LastSeen_of_lookup _ _ _ _ hl

/-- Witness of C7 (amended): the two Pongs of `a` at receipt times 11 and 12 after a ping at 2. -/
theorem last_accepted_pong_wins_witness :
    GoMap.lookup
      (processMessage sampleExtern (processMessage sampleExtern
        (pingAgents sampleExtern (NewMonitor ["a", "b"] []) 2).1 "pong-a" 11).1
        "pong-a" 12).1.agentsWaitRoom "a" = some 12 ∧
    (GoMap.getD (checkAgents (processMessage sampleExtern (processMessage sampleExtern
        (pingAgents sampleExtern (NewMonitor ["a", "b"] []) 2).1 "pong-a" 11).1
        "pong-a" 12).1).1.results "a" AgentResult.zero).Active = true ∧
    (GoMap.getD (checkAgents (processMessage sampleExtern (processMessage sampleExtern
        (pingAgents sampleExtern (NewMonitor ["a", "b"] []) 2).1 "pong-a" 11).1
        "pong-a" 12).1).1.results "a" AgentResult.zero).LastSeen = 12 :=
  last_accepted_pong_wins sampleExtern (pingAgents sampleExtern (NewMonitor ["a", "b"] []) 2).1
    "a" "pong-a" "pong-a" 11 12 { Sender := "a", MsgType := "pong", Message := "||" }
    { Sender := "a", MsgType := "pong", Message := "||" }
    (by decide) (by decide) (by decide) (by decide) (by decide) (by decide) (by decide)
    (by decide) (by decide)

/-! ## No name twice in a batch -/

theorem checkAgent_active_stable (waitRoom : GoMap Time) (s : CheckState) (n k : String)
    (b : Bool) (hw : GoMap.contains waitRoom k = b)
    (ha : (GoMap.getD s.results k AgentResult.zero).Active = b) :
    (GoMap.getD (checkAgent waitRoom s n).results k AgentResult.zero).Active = b := by
  rw [checkAgent_getD]
  split
  · rw [reconciled_Active, hw]
  · exact ha

theorem checkAgent_namesKeyed (waitRoom : GoMap Time) (all : List String) (s : CheckState)
    (n : String) (hk : NamesKeyed all s.results) :
    NamesKeyed all (checkAgent waitRoom s n).results := by
  intro k hkall
  rw [checkAgent_getD]
  split
  · rw [reconciled_Name]; exact hk k hkall
  · exact hk k hkall

theorem checkAgent_batchInv (waitRoom : GoMap Time) (all : List String) (s : CheckState)
    (n : String) (hn : n ∈ all) (h : BatchInv waitRoom all s) :
    BatchInv waitRoom all (checkAgent waitRoom s n) := by
  obtain ⟨hk, hl, hf, hli, hfi⟩ := h
  have hname : (GoMap.getD s.results n AgentResult.zero).Name = n := hk n hn
  have hself : (GoMap.getD (checkAgent waitRoom s n).results n AgentResult.zero).Active =
      GoMap.contains waitRoom n := by
    rw [checkAgent_getD]; simp [reconciled_Active]
  refine ⟨checkAgent_namesKeyed waitRoom all s n hk, ?_, ?_, ?_, ?_⟩
  · rw [checkAgent_losts]
    split
    · rename_i hc
      rw [List.map_append, List.nodup_append]
      refine ⟨hl, by simp, ?_⟩
      intro a ha1 ha2
      have ha3 : a = n := by simpa [hname] using ha2
      subst ha3
      obtain ⟨r, hr, hrn⟩ := List.mem_map.1 ha1
      have := (hli r hr).2
      rw [hrn, hc.2] at this
      exact Bool.noConfusion this
    · exact hl
  · rw [checkAgent_founds]
    split
    · rename_i hc
      rw [List.map_append, List.nodup_append]
      refine ⟨hf, by simp, ?_⟩
      intro a ha1 ha2
      have ha3 : a = n := by simpa [hname] using ha2
      subst ha3
      obtain ⟨r, hr, hrn⟩ := List.mem_map.1 ha1
      have := (hfi r hr).2
      rw [hrn, hc.2] at this
      exact Bool.noConfusion this
    · exact hf
  · intro r hr
    rw [checkAgent_losts] at hr
    split at hr
    · rename_i hc
      rcases List.mem_append.1 hr with h1 | h1
      · exact ⟨(hli r h1).1, checkAgent_active_stable _ _ _ _ _ (hli r h1).1 (hli r h1).2⟩
      · have hr2 : r.Name = n := by
          have := List.mem_singleton.1 h1
          rw [this]; exact hname
        rw [hr2]
        exact ⟨hc.1, by rw [hself, hc.1]⟩
    · exact ⟨(hli r hr).1, checkAgent_active_stable _ _ _ _ _ (hli r hr).1 (hli r hr).2⟩
  · intro r hr
    rw [checkAgent_founds] at hr
    split at hr
    · rename_i hc
      rcases List.mem_append.1 hr with h1 | h1
      · exact ⟨(hfi r h1).1, checkAgent_active_stable _ _ _ _ _ (hfi r h1).1 (hfi r h1).2⟩
      · have hr2 : r.Name = n := by
          have := List.mem_singleton.1 h1
          rw [this]; exact hname
        rw [hr2]
        exact ⟨hc.1, by rw [hself, hc.1]⟩
    · exact ⟨(hfi r hr).1, checkAgent_active_stable _ _ _ _ _ (hfi r hr).1 (hfi r hr).2⟩

theorem checkAgentsLoop_batchInv (waitRoom : GoMap Time) (all names : List String)
    (s : CheckState) (hsub : ∀ n ∈ names, n ∈ all) (h : BatchInv waitRoom all s) :
    BatchInv waitRoom all (checkAgentsLoop waitRoom names s) := by
  induction names generalizing s with
  | nil => exact h
  | cons a rest ih =>
    rw [checkAgentsLoop]
    exact ih _ (fun n hn => hsub n (List.mem_cons_of_mem _ hn))
      (checkAgent_batchInv waitRoom all s a (hsub a (List.mem_cons_self _ _)) h)

theorem checkAgentsRun_batchInv (m : Monitor) (hk : NamesKeyed m.agentNames m.results) :
    BatchInv m.agentsWaitRoom m.agentNames (checkAgentsRun m) := by
  unfold checkAgentsRun
  apply checkAgentsLoop_batchInv _ _ _ _ (fun n hn => hn)
  exact ⟨hk, by simp, by simp, by simp, by simp⟩

/-! ## Reachable states -/

theorem initResults_getD_of_not_mem (names : List String) (res : GoMap AgentResult)
    (n : String) (h : n ∉ names) :
    GoMap.getD (initResults names res) n AgentResult.zero = GoMap.getD res n AgentResult.zero := by
  induction names generalizing res with
  | nil => rfl
  | cons a rest ih =>
    have h1 : ¬ a = n := fun e => h (e ▸ List.mem_cons_self _ _)
    have h2 : n ∉ rest := fun e => h (List.mem_cons_of_mem _ e)
    rw [initResults, ih _ h2, GoMap.getD_set]
    simp [h1]

theorem initResults_getD_of_mem (names : List String) (res : GoMap AgentResult)
    (n : String) (h : n ∈ names) :
    GoMap.getD (initResults names res) n AgentResult.zero =
      { Name := n, Active := true, LastSeen := zeroTime } := by
  induction names generalizing res with
  | nil => exact absurd h (List.not_mem_nil _)
  | cons a rest ih =>
    rw [initResults]
    by_cases hr : n ∈ rest
    · exact ih _ hr
    · have ha : n = a := by
        rcases List.mem_cons.1 h with h1 | h1
        · exact h1
        · exact absurd h1 hr
      subst ha
      rw [initResults_getD_of_not_mem _ _ _ hr, GoMap.getD_set]
      simp

theorem NewMonitor_namesKeyed (names : List String) (conf : List MonitorConfig) :
    NamesKeyed (NewMonitor names conf).agentNames (NewMonitor names conf).results := by
  intro n hn
  show (GoMap.getD (initResults names []) n AgentResult.zero).Name = n
  rw [initResults_getD_of_mem names [] n hn]

theorem checkAgents_frame (m : Monitor) :
    (checkAgents m).1.agentNames = m.agentNames ∧
    (checkAgents m).1.agentsWaitRoom = m.agentsWaitRoom ∧
    (checkAgents m).1.lastPing = m.lastPing ∧
    (checkAgents m).1.conf = m.conf :=
  ⟨rfl, rfl, rfl, rfl⟩

theorem checkAgents_namesKeyed (m : Monitor) (hk : NamesKeyed m.agentNames m.results) :
    NamesKeyed (checkAgents m).1.agentNames (checkAgents m).1.results := by
  intro n hn
  rw [checkAgents_getD]
  split
  · rw [reconciled_Name]; exact hk n hn
  · exact hk n hn

theorem pingAgents_frame (x : Extern) (m : Monitor) (now : Time) :
    (pingAgents x m now).1.results = m.results ∧
    (pingAgents x m now).1.agentNames = m.agentNames ∧
    (pingAgents x m now).1.lastPing = now ∧
    (pingAgents x m now).1.conf = m.conf := by
  unfold pingAgents
  dsimp only
  split <;> exact ⟨rfl, rfl, rfl, rfl⟩

theorem pingAgents_waitRoom (x : Extern) (m : Monitor) (now : Time) :
    (pingAgents x m now).1.agentsWaitRoom = [] ∨
      (pingAgents x m now).1.agentsWaitRoom = m.agentsWaitRoom := by
  unfold pingAgents
  dsimp only
  split
  · exact Or.inr rfl
  · exact Or.inl rfl

theorem processMessages_frame (x : Extern) (m : Monitor) (msgs : List (String × Time)) :
    (processMessages x m msgs).1.results = m.results ∧
    (processMessages x m msgs).1.agentNames = m.agentNames ∧
    (processMessages x m msgs).1.lastPing = m.lastPing ∧
    (processMessages x m msgs).1.conf = m.conf := by
  induction msgs generalizing m with
  | nil => exact ⟨rfl, rfl, rfl, rfl⟩
  | cons pm rest ih =>
    obtain ⟨h1, h2, h3, h4⟩ := ih (processMessage x m pm.1 pm.2).1
    obtain ⟨g1, g2, g3, g4⟩ := processMessage_frame x m pm.1 pm.2
    exact ⟨h1.trans g1, h2.trans g2, h3.trans g3, h4.trans g4⟩

theorem step_agentNames (x : Extern) (m : Monitor) (op : Op) :
    (step x m op).1.agentNames = m.agentNames := by
  cases op with
  | ping now => exact (pingAgents_frame x m now).2.1
  | message payload now => exact (processMessage_frame x m payload now).2.1
  | check => rfl

theorem step_namesKeyed (x : Extern) (m : Monitor) (op : Op)
    (hk : NamesKeyed m.agentNames m.results) :
    NamesKeyed (step x m op).1.agentNames (step x m op).1.results := by
  cases op with
  | ping now =>
    show NamesKeyed (pingAgents x m now).1.agentNames (pingAgents x m now).1.results
    rw [(pingAgents_frame x m now).1, (pingAgents_frame x m now).2.1]; exact hk
  | message payload now =>
    show NamesKeyed (processMessage x m payload now).1.agentNames
      (processMessage x m payload now).1.results
    rw [(processMessage_frame x m payload now).1, (processMessage_frame x m payload now).2.1]
    exact hk
  | check => exact checkAgents_namesKeyed m hk

theorem run_agentNames (x : Extern) (m : Monitor) (ops : List Op) :
    (run x m ops).1.agentNames = m.agentNames := by
  induction ops generalizing m with
  | nil => rfl
  | cons op rest ih =>
    show (run x (step x m op).1 rest).1.agentNames = m.agentNames
    rw [ih, step_agentNames]

theorem run_namesKeyed (x : Extern) (m : Monitor) (ops : List Op)
    (hk : NamesKeyed m.agentNames m.results) :
    NamesKeyed (run x m ops).1.agentNames (run x m ops).1.results := by
  induction ops generalizing m with
  | nil => exact hk
  | cons op rest ih => exact ih (step x m op).1 (step_namesKeyed x m op hk)

/-! ## The events of a cycle -/

theorem lostBatches_append (e1 e2 : List Event) :
    lostBatches (e1 ++ e2) = lostBatches e1 ++ lostBatches e2 := by
  induction e1 with
  | nil => rfl
  | cons e rest ih => cases e <;> simp [lostBatches, ih]

theorem foundBatches_append (e1 e2 : List Event) :
    foundBatches (e1 ++ e2) = foundBatches e1 ++ foundBatches e2 := by
  induction e1 with
  | nil => rfl
  | cons e rest ih => cases e <;> simp [foundBatches, ih]

theorem pingAgents_batches (x : Extern) (m : Monitor) (now : Time) :
    lostBatches (pingAgents x m now).2 = [] ∧ foundBatches (pingAgents x m now).2 = [] := by
  unfold pingAgents
  dsimp only
  split <;> exact ⟨rfl, rfl⟩

theorem processMessage_batches (x : Extern) (m : Monitor) (payload : String) (now : Time) :
    lostBatches (processMessage x m payload now).2 = [] ∧
      foundBatches (processMessage x m payload now).2 = [] := by
  unfold processMessage
  cases x.unmarshal payload with
  | none => exact ⟨rfl, rfl⟩
  | some msg =>
    simp only
    split_ifs <;> exact ⟨rfl, rfl⟩

theorem processMessages_batches (x : Extern) (m : Monitor) (msgs : List (String × Time)) :
    lostBatches (processMessages x m msgs).2 = [] ∧
      foundBatches (processMessages x m msgs).2 = [] := by
  induction msgs generalizing m with
  | nil => exact ⟨rfl, rfl⟩
  | cons pm rest ih =>
    obtain ⟨h1, h2⟩ := ih (processMessage x m pm.1 pm.2).1
    obtain ⟨g1, g2⟩ := processMessage_batches x m pm.1 pm.2
    constructor
    · show lostBatches (_ ++ _) = []
      rw [lostBatches_append, h1, g1]; rfl
    · show foundBatches (_ ++ _) = []
      rw [foundBatches_append, h2, g2]; rfl

theorem checkAgents_lostNames (m : Monitor) :
    lostNames (checkAgents m).2 = (checkAgentsRun m).losts.map AgentResult.Name := by
  rw [checkAgents_events]
  unfold lostNames
  cases hl : (checkAgentsRun m).losts <;> cases hf : (checkAgentsRun m).founds <;>
    simp [lostBatches]

theorem checkAgents_foundNames (m : Monitor) :
    foundNames (checkAgents m).2 = (checkAgentsRun m).founds.map AgentResult.Name := by
  rw [checkAgents_events]
  unfold foundNames
  cases hl : (checkAgentsRun m).losts <;> cases hf : (checkAgentsRun m).founds <;>
    simp [foundBatches]

/-- The state a cycle hands to `checkAgents`. -/
theorem runCycle_eq (x : Extern) (m : Monitor) (c : Cycle) :
    (runCycle x m c).1 =
      (checkAgents (processMessages x (pingAgents x m c.pingTime).1 c.messages).1).1 ∧
    lostNames (runCycle x m c).2 =
      lostNames (checkAgents (processMessages x (pingAgents x m c.pingTime).1 c.messages).1).2 ∧
    foundNames (runCycle x m c).2 =
      foundNames
        (checkAgents (processMessages x (pingAgents x m c.pingTime).1 c.messages).1).2 := by
  refine ⟨rfl, ?_, ?_⟩
  · unfold lostNames runCycle
    simp only [lostBatches_append, (pingAgents_batches x m c.pingTime).1,
      (processMessages_batches x _ c.messages).1, List.nil_append]
  · unfold foundNames runCycle
    simp only [foundBatches_append, (pingAgents_batches x m c.pingTime).2,
      (processMessages_batches x _ c.messages).2, List.nil_append]

theorem runCycle_namesKeyed (x : Extern) (m : Monitor) (c : Cycle)
    (hk : NamesKeyed m.agentNames m.results) :
    NamesKeyed (processMessages x (pingAgents x m c.pingTime).1 c.messages).1.agentNames
      (processMessages x (pingAgents x m c.pingTime).1 c.messages).1.results := by
  rw [(processMessages_frame x _ c.messages).1, (processMessages_frame x _ c.messages).2.1,
    (pingAgents_frame x m c.pingTime).1, (pingAgents_frame x m c.pingTime).2.1]
  exact hk

/-- In a state whose records are read under their keys, no name occurs twice in the lost batch
or twice in the found batch of `checkAgents`, and none occurs in both. -/
theorem checkAgents_names_once (m : Monitor) (hk : NamesKeyed m.agentNames m.results)
    (a : String) :
    (lostNames (checkAgents m).2).count a ≤ 1 ∧
    (foundNames (checkAgents m).2).count a ≤ 1 ∧
    ¬ (a ∈ lostNames (checkAgents m).2 ∧ a ∈ foundNames (checkAgents m).2) := by
  obtain ⟨_, hl, hf, hli, hfi⟩ := checkAgentsRun_batchInv m hk
  rw [checkAgents_lostNames, checkAgents_foundNames]
  refine ⟨List.nodup_iff_count_le_one.1 hl a, List.nodup_iff_count_le_one.1 hf a, ?_⟩
  rintro ⟨h1, h2⟩
  obtain ⟨r1, hr1, e1⟩ := List.mem_map.1 h1
  obtain ⟨r2, hr2, e2⟩ := List.mem_map.1 h2
  have w1 := (hli r1 hr1).1
  have w2 := (hfi r2 hr2).1
  rw [e1] at w1
  rw [e2, w1] at w2
  exact Bool.noConfusion w2

/-- C8: whatever the list of configured names (repeated names included), whatever calls were
made on the monitor before, and whatever messages are processed between `pingAgents` and
`checkAgents`, every name occurs at most once in the lost batch and at most once in the found
batch of the cycle, and never in both. -/
theorem one_transition_per_agent_per_cycle (x : Extern) (names : List String)
    (conf : List MonitorConfig) (history : List Op) (c : Cycle) (a : String) :
    (lostNames (runCycle x (run x (NewMonitor names conf) history).1 c).2).count a ≤ 1 ∧
    (foundNames (runCycle x (run x (NewMonitor names conf) history).1 c).2).count a ≤ 1 ∧
    ¬ (a ∈ lostNames (runCycle x (run x (NewMonitor names conf) history).1 c).2 ∧
       a ∈ foundNames (runCycle x (run x (NewMonitor names conf) history).1 c).2) := by
  have hk0 := run_namesKeyed x (NewMonitor names conf) history (NewMonitor_namesKeyed names conf)
  have hk := runCycle_namesKeyed x _ c hk0
  obtain ⟨_, e1, e2⟩ := runCycle_eq x (run x (NewMonitor names conf) history).1 c
  rw [e1, e2]
  exact checkAgents_names_once _ hk a

/-! ## An agent that never answers -/

theorem processMessage_waitRoom_absent (x : Extern) (m : Monitor) (a payload : String)
    (now : Time) (hno : isPongFrom x a payload = false)
    (hw : GoMap.contains m.agentsWaitRoom a = false) :
    GoMap.contains (processMessage x m payload now).1.agentsWaitRoom a = false := by
  by_cases h : ∃ msg, x.unmarshal payload = some msg ∧ msg.MsgType = PulseMessagePong ∧
      msg.Sender ∈ m.agentNames ∧ msg.Message = x.render m.lastPing
  · obtain ⟨msg, hd, hp, hs, ht⟩ := h
    rw [processMessage_accept x m payload now msg hd hp hs ht]
    have hne : ¬ msg.Sender = a := by
      intro e
      simp [isPongFrom, hd, hp, e] at hno
    simp [GoMap.contains_set, hne, hw]
  · rw [processMessage_reject x m payload now h]
    exact hw

theorem processMessages_waitRoom_absent (x : Extern) (m : Monitor) (a : String)
    (msgs : List (String × Time)) (hno : ∀ pm ∈ msgs, isPongFrom x a pm.1 = false)
    (hw : GoMap.contains m.agentsWaitRoom a = false) :
    GoMap.contains (processMessages x m msgs).1.agentsWaitRoom a = false := by
  induction msgs generalizing m with
  | nil => exact hw
  | cons pm rest ih =>
    exact ih (processMessage x m pm.1 pm.2).1
      (fun q hq => hno q (List.mem_cons_of_mem _ hq))
      (processMessage_waitRoom_absent x m a pm.1 pm.2 (hno pm (List.mem_cons_self _ _)) hw)

theorem pingAgents_waitRoom_absent (x : Extern) (m : Monitor) (a : String) (now : Time)
    (hw : GoMap.contains m.agentsWaitRoom a = false) :
    GoMap.contains (pingAgents x m now).1.agentsWaitRoom a = false := by
  rcases pingAgents_waitRoom x m now with h | h
  · rw [h]; rfl
  · rw [h]; exact hw

/-- One cycle in which the configured agent `a`, absent from the wait-room at the start, sends
no Pong: it ends inactive and still absent, and it is reported lost exactly when it read
active before. -/
theorem runCycle_silent (x : Extern) (m : Monitor) (c : Cycle) (a : String)
    (ha : a ∈ m.agentNames) (hk : NamesKeyed m.agentNames m.results)
    (hw : GoMap.contains m.agentsWaitRoom a = false)
    (hno : ∀ pm ∈ c.messages, isPongFrom x a pm.1 = false) :
    (runCycle x m c).1.agentNames = m.agentNames ∧
    NamesKeyed (runCycle x m c).1.agentNames (runCycle x m c).1.results ∧
    GoMap.contains (runCycle x m c).1.agentsWaitRoom a = false ∧
    (GoMap.getD (runCycle x m c).1.results a AgentResult.zero).Active = false ∧
    ((GoMap.getD m.results a AgentResult.zero).Active = true →
      (lostNames (runCycle x m c).2).count a = 1) ∧
    ((GoMap.getD m.results a AgentResult.zero).Active = false →
      a ∉ lostNames (runCycle x m c).2) := by
  obtain ⟨e0, e1, _⟩ := runCycle_eq x m c
  have hk2 := runCycle_namesKeyed x m c hk
  have hw2 : GoMap.contains
      (processMessages x (pingAgents x m c.pingTime).1 c.messages).1.agentsWaitRoom a = false :=
    processMessages_waitRoom_absent x _ a c.messages hno
      (pingAgents_waitRoom_absent x m a c.pingTime hw)
  have hn2 : (processMessages x (pingAgents x m c.pingTime).1 c.messages).1.agentNames =
      m.agentNames := by
    rw [(processMessages_frame x _ c.messages).2.1, (pingAgents_frame x m c.pingTime).2.1]
  have hr2 : (processMessages x (pingAgents x m c.pingTime).1 c.messages).1.results =
      m.results := by
    rw [(processMessages_frame x _ c.messages).1, (pingAgents_frame x m c.pingTime).1]
  have ha2 : a ∈ (processMessages x (pingAgents x m c.pingTime).1 c.messages).1.agentNames := by
    rw [hn2]; exact ha
  rw [e0, e1]
  generalize (processMessages x (pingAgents x m c.pingTime).1 c.messages).1 = m2 at *
  have hmem : a ∈ lostNames (checkAgents m2).2 ↔
      (GoMap.getD m.results a AgentResult.zero).Active = true := by
    rw [checkAgents_lostNames, List.mem_map]
    constructor
    · rintro ⟨r, hr, hrn⟩
      obtain ⟨n, hn, hact, _, hreq⟩ := (mem_checkAgentsRun_losts m2 r).1 hr
      have hname : r.Name = n := by rw [hreq]; exact hk2 n hn
      have hna : n = a := hname.symm.trans hrn
      rw [hna, hr2] at hact
      exact hact
    · intro hact
      refine ⟨{ GoMap.getD m2.results a AgentResult.zero with Active := false }, ?_, hk2 a ha2⟩
      exact (mem_checkAgentsRun_losts m2 _).2 ⟨a, ha2, by rw [hr2]; exact hact, hw2, rfl⟩
  refine ⟨hn2, checkAgents_namesKeyed m2 hk2, hw2, ?_, ?_, ?_⟩
  · rw [checkAgents_getD, if_pos ha2, reconciled_Active, hw2]
  · intro hact
    exact le_antisymm (checkAgents_names_once m2 hk2 a).1
      (List.count_pos_iff.2 (hmem.2 hact))
  · intro hact hin
    have := hmem.1 hin
    rw [hact] at this
    exact Bool.noConfusion this

theorem runCycles_silent (x : Extern) (m : Monitor) (cs : List Cycle) (a : String)
    (ha : a ∈ m.agentNames) (hk : NamesKeyed m.agentNames m.results)
    (hw : GoMap.contains m.agentsWaitRoom a = false)
    (hact : (GoMap.getD m.results a AgentResult.zero).Active = false)
    (hno : ∀ d ∈ cs, ∀ pm ∈ d.messages, isPongFrom x a pm.1 = false) :
    ∀ e ∈ runCycles x m cs, a ∉ lostNames e.2 ∧
      (GoMap.getD e.1.results a AgentResult.zero).Active = false := by
  induction cs generalizing m with
  | nil => intro e he; exact absurd he (List.not_mem_nil _)
  | cons c rest ih =>
    obtain ⟨h1, h2, h3, h4, _, h6⟩ :=
      runCycle_silent x m c a ha hk hw (hno c (List.mem_cons_self _ _))
    intro e he
    rcases List.mem_cons.1 he with e1 | e1
    · rw [e1]; exact ⟨h6 hact, h4⟩
    · exact ih (runCycle x m c).1 (by rw [h1]; exact ha) h2 h3 h4
        (fun d hd => hno d (List.mem_cons_of_mem _ hd)) e e1

/-- C3: on a freshly constructed monitor, a configured agent `a` from which no Pong is ever
processed is inactive after the first cycle, occurs exactly once in the lost batch of the first
cycle, and occurs in no lost batch of any later cycle (where it also stays inactive). -/
theorem silent_agent_lost_exactly_once (x : Extern) (names : List String)
    (conf : List MonitorConfig) (a : String) (c : Cycle) (cs : List Cycle)
    (ha : a ∈ names)
    (hno : ∀ d ∈ c :: cs, ∀ pm ∈ d.messages, isPongFrom x a pm.1 = false) :
    (GoMap.getD (runCycle x (NewMonitor names conf) c).1.results a AgentResult.zero).Active
      = false ∧
    (lostNames (runCycle x (NewMonitor names conf) c).2).count a = 1 ∧
    ∀ e ∈ runCycles x (runCycle x (NewMonitor names conf) c).1 cs,
      a ∉ lostNames e.2 ∧ (GoMap.getD e.1.results a AgentResult.zero).Active = false := by
  have hk := NewMonitor_namesKeyed names conf
  have ha0 : a ∈ (NewMonitor names conf).agentNames := ha
  have hact : (GoMap.getD (NewMonitor names conf).results a AgentResult.zero).Active = true := by
    show (GoMap.getD (initResults names []) a AgentResult.zero).Active = true
    rw [initResults_getD_of_mem names [] a ha]
  obtain ⟨h1, h2, h3, h4, h5, _⟩ :=
    runCycle_silent x (NewMonitor names conf) c a ha0 hk rfl (hno c (List.mem_cons_self _ _))
  refine ⟨h4, h5 hact, ?_⟩
  exact runCycles_silent x _ cs a (by rw [h1]; exact ha0) h2 h3 h4
    (fun d hd => hno d (List.mem_cons_of_mem _ hd))

/-- Witness of C3: agents `a` and `b`; in the first cycle only `a` answers the ping of instant
2, in the second nobody answers; `b` never sends a Pong. -/
theorem silent_agent_lost_exactly_once_witness :
    (GoMap.getD (runCycle sampleExtern (NewMonitor ["a", "b"] [])
      { pingTime := 2, messages := [("pong-a", 3), ("info-z", 4)] }).1.results
      "b" AgentResult.zero).Active = false ∧
    (lostNames (runCycle sampleExtern (NewMonitor ["a", "b"] [])
      { pingTime := 2, messages := [("pong-a", 3), ("info-z", 4)] }).2).count "b" = 1 ∧
    ∀ e ∈ runCycles sampleExtern (runCycle sampleExtern (NewMonitor ["a", "b"] [])
        { pingTime := 2, messages := [("pong-a", 3), ("info-z", 4)] }).1
        [{ pingTime := 5, messages := [("stale-a", 6)] }],
      "b" ∉ lostNames e.2 ∧ (GoMap.getD e.1.results "b" AgentResult.zero).Active = false :=
  silent_agent_lost_exactly_once sampleExtern ["a", "b"] [] "b"
    { pingTime := 2, messages := [("pong-a", 3), ("info-z", 4)] }
    [{ pingTime := 5, messages := [("stale-a", 6)] }] (by decide) (by decide)

/-! ## The effective configuration -/

/-- C9, as stated, fails: with `PulseTick = 1s` and `MaxWaitResponse` left at its zero
value, `NewMonitor` stores `MaxWaitResponse = 0`, which is not `PulseTick` (1s): the recomputed
`PulseTick - 1s` is zero, and only a negative value falls back to `PulseTick`. -/
theorem NewMonitor_one_second_tick_stores_zero_wait :
    (NewMonitor ["agent1", "agent2"]
      [{ PulseTopic := "", PulseTick := 1 * Second, MaxWaitResponse := 0 }]).conf
      = { PulseTopic := "pulse", PulseTick := 1 * Second, MaxWaitResponse := 0 } ∧
    (NewMonitor ["agent1", "agent2"]
      [{ PulseTopic := "", PulseTick := 1 * Second, MaxWaitResponse := 0 }]).conf.MaxWaitResponse
      ≠ (NewMonitor ["agent1", "agent2"]
      [{ PulseTopic := "", PulseTick := 1 * Second, MaxWaitResponse := 0 }]).conf.PulseTick := by
  decide

/-- Subtracting one second from a duration is exact unless it leaves the `int64` range. -/
theorem Duration.sub_second_exact (tick : Duration) (h1 : -(2 ^ 63) + Second ≤ tick)
    (h2 : tick < 2 ^ 63) : Duration.sub tick Second = tick - Second := by
  unfold Duration.sub wrap64
  unfold Second at *
  unfold Duration at *
  have h3 : (tick - 1000000000 + 2 ^ 63) % 2 ^ 64 = tick - 1000000000 + 2 ^ 63 :=
    Int.emod_eq_of_lt (by omega) (by omega)
  omega

/-- C10: the configuration stored by `NewMonitor` is the documented rule applied to the first
configuration argument: the topic is "pulse" when empty and the given topic otherwise; the
tick is 5s when zero and the given value otherwise; the grace period is kept when non-zero and
strictly below the effective tick, and otherwise is the tick minus 1s (as a `time.Duration`
difference) unless that is negative, in which case it is the tick. With no configuration
argument the result is ("pulse", 5s, 4s). -/
theorem NewMonitor_conf_follows_rule (names : List String) (c : MonitorConfig)
    (rest : List MonitorConfig) :
    (NewMonitor names (c :: rest)).conf =
      { PulseTopic := specPulseTopic c.PulseTopic
        PulseTick := specPulseTick c.PulseTick
        MaxWaitResponse := specMaxWaitResponse c.MaxWaitResponse (specPulseTick c.PulseTick) } ∧
    (NewMonitor names []).conf =
      { PulseTopic := "pulse", PulseTick := 5 * Second, MaxWaitResponse := 4 * Second } := by
  constructor
  · obtain ⟨topic, tick, wait⟩ := c
    simp only [NewMonitor, effectiveConf, specPulseTopic, specPulseTick, specMaxWaitResponse,
      Duration.sub]
    by_cases h1 : topic = "" <;> by_cases h2 : tick = 0 <;>
      simp only [h1, h2, if_true, if_false, one_mul]
    all_goals
      generalize wrap64 (_ - Second) = w
      unfold Duration at *
      split_ifs <;> first
        | rfl
        | (exfalso; omega)
  · have h : effectiveConf [] =
        { PulseTopic := "pulse", PulseTick := 5 * Second, MaxWaitResponse := 4 * Second } := by
      decide
    exact h

/-! ## The agent -/

/-- C11: for a payload that decodes to a Ping with message field `m`, whatever its sender, the
agent makes exactly one publish call, on its pulse topic, carrying the serialization of the
message with sender the agent's name, type Pong and message `m`; for a payload that fails to
decode or whose type is not Ping it publishes nothing and raises no error notification. -/
theorem agent_echoes_ping_token (x : Extern) (publish : String → String → Option String)
    (a : Agent) (payload : String) :
    (∀ msg, x.unmarshal payload = some msg → msg.MsgType = PulseMessagePing →
      published (Agent.processMessage x publish a payload) =
        [(a.pulseTopic, marshalBytes x
          { Sender := a.Name, MsgType := PulseMessagePong, Message := msg.Message })]) ∧
    (x.unmarshal payload = none → Agent.processMessage x publish a payload = []) ∧
    (∀ msg, x.unmarshal payload = some msg → msg.MsgType ≠ PulseMessagePing →
      Agent.processMessage x publish a payload = []) := by
  refine ⟨?_, ?_, ?_⟩
  · intro msg hd hp
    simp only [Agent.processMessage, hd, hp, ne_eq, not_true_eq_false, if_false,
      Agent.sendPong, Agent.sendMessage]
    cases publish a.pulseTopic (marshalBytes x
      { Sender := a.Name, MsgType := PulseMessagePong, Message := msg.Message }) <;>
      simp [published]
  · intro hd
    simp [Agent.processMessage, hd]
  · intro msg hd hp
    simp [Agent.processMessage, hd, hp]

/-! ## Dispatch of the other message types -/

/-- C14: a payload that fails to decode produces exactly one error notification with sender
"unknown", type error and the raw payload as message; a decoded message of a configured agent
produces exactly one error notification carrying it when its type is Error, exactly one info
notification carrying it when its type is Info, and nothing when its type is Ping. In all four
cases the whole monitor state (results, wait-room, `lastPing`) is unchanged. -/
theorem processMessage_dispatches_non_pong (x : Extern) (m : Monitor) (payload : String)
    (now : Time) :
    (x.unmarshal payload = none →
      processMessage x m payload now =
        (m, [Event.ErrorEvent
          { Sender := "unknown", MsgType := PulseMessageError, Message := payload }])) ∧
    (∀ msg, x.unmarshal payload = some msg → msg.Sender ∈ m.agentNames →
      (msg.MsgType = PulseMessageError →
        processMessage x m payload now = (m, [Event.ErrorEvent msg])) ∧
      (msg.MsgType = PulseMessageInfo →
        processMessage x m payload now = (m, [Event.InfoEvent msg])) ∧
      (msg.MsgType = PulseMessagePing → processMessage x m payload now = (m, []))) := by
  constructor
  · intro hd
    simp [processMessage, hd]
  · intro msg hd hs
    have hv : isValidAgentName m msg.Sender = true := (isValidAgentName_iff m _).2 hs
    have h1 : PulseMessageInfo ≠ PulseMessageError := by decide
    have h2 : PulseMessageInfo ≠ PulseMessagePing := by decide
    have h3 : PulseMessagePing ≠ PulseMessageError := by decide
    refine ⟨?_, ?_, ?_⟩
    · intro ht
      simp [processMessage, hd, hv, ht]
    · intro ht
      simp [processMessage, hd, hv, ht, h1, h2]
    · intro ht
      simp [processMessage, hd, hv, ht, h3]

/-! ## The start of a cycle -/

theorem step_lastPing (x : Extern) (m : Monitor) (op : Op) (h : op.isPing = false) :
    (step x m op).1.lastPing = m.lastPing := by
  cases op with
  | ping now => exact absurd h (by simp [Op.isPing])
  | message payload now => exact (processMessage_frame x m payload now).2.2.1
  | check => rfl

theorem run_lastPing (x : Extern) (m : Monitor) (ops : List Op)
    (h : ∀ op ∈ ops, op.isPing = false) : (run x m ops).1.lastPing = m.lastPing := by
  induction ops generalizing m with
  | nil => rfl
  | cons op rest ih =>
    show (run x (step x m op).1 rest).1.lastPing = m.lastPing
    rw [ih _ (fun o ho => h o (List.mem_cons_of_mem _ ho)),
      step_lastPing x m op (h op (List.mem_cons_self _ _))]

theorem pingAgents_ok (x : Extern) (m : Monitor) (now : Time) (s : String)
    (hm : x.marshal { Sender := "ping", MsgType := PulseMessagePing, Message := x.render now }
      = Except.ok s) :
    pingAgents x m now =
      ({ m with lastPing := now, agentsWaitRoom := [] }, [Event.Publish m.conf.PulseTopic s]) := by
  unfold pingAgents
  dsimp only
  rw [hm]

/-- C15: when the Ping serializes (to `s`), `pingAgents` sets `lastPing` to `now`, empties the
wait-room, leaves the records and everything else as they were, and makes exactly one publish
call, on the pulse topic, carrying `s`, the serialization of the message of type Ping whose
message field is the rendering of the new `lastPing`. After it, and after any further calls
none of which is `pingAgents`, a Pong of a configured agent whose message field is that
rendering is accepted: it is stored in the wait-room with its receipt time. -/
theorem pingAgents_starts_fresh_cycle (x : Extern) (m : Monitor) (now : Time) (s : String)
    (hm : x.marshal { Sender := "ping", MsgType := PulseMessagePing, Message := x.render now }
      = Except.ok s) :
    pingAgents x m now =
      ({ m with lastPing := now, agentsWaitRoom := [] }, [Event.Publish m.conf.PulseTopic s]) ∧
    ∀ (ops : List Op), (∀ op ∈ ops, op.isPing = false) →
      ∀ (payload : String) (t : Time) (msg : Message), x.unmarshal payload = some msg →
        msg.MsgType = PulseMessagePong → msg.Sender ∈ m.agentNames →
        msg.Message = x.render now →
        processMessage x (run x (pingAgents x m now).1 ops).1 payload t =
          ({ (run x (pingAgents x m now).1 ops).1 with
              agentsWaitRoom :=
                GoMap.set (run x (pingAgents x m now).1 ops).1.agentsWaitRoom msg.Sender t },
            []) := by
  refine ⟨pingAgents_ok x m now s hm, ?_⟩
  intro ops hops payload t msg hd hp hs ht
  apply processMessage_accept x _ payload t msg hd hp
  · rw [run_agentNames, (pingAgents_frame x m now).2.1]; exact hs
  · rw [run_lastPing x _ ops hops, (pingAgents_frame x m now).2.2.1]; exact ht

/-- Witness of C15: a ping at instant 2 in `sampleState`, then a stale Pong and a check, then
the Pong of `b` that echoes the token of instant 2. -/
theorem pingAgents_starts_fresh_cycle_witness :
    pingAgents sampleExtern sampleState 2 =
      ({ sampleState with lastPing := 2, agentsWaitRoom := [] },
        [Event.Publish "pulse" "ping/ping/||"]) ∧
    processMessage sampleExtern
        (run sampleExtern (pingAgents sampleExtern sampleState 2).1
          [Op.message "stale-a" 3, Op.check]).1 "pong-b" 4 =
      ({ (run sampleExtern (pingAgents sampleExtern sampleState 2).1
            [Op.message "stale-a" 3, Op.check]).1 with
          agentsWaitRoom := GoMap.set (run sampleExtern (pingAgents sampleExtern sampleState 2).1
            [Op.message "stale-a" 3, Op.check]).1.agentsWaitRoom "b" 4 }, []) :=
  ⟨(pingAgents_starts_fresh_cycle sampleExtern sampleState 2 "ping/ping/||" rfl).1,
   (pingAgents_starts_fresh_cycle sampleExtern sampleState 2 "ping/ping/||" rfl).2
     [Op.message "stale-a" 3, Op.check] (by decide) "pong-b" 4
     { Sender := "b", MsgType := "pong", Message := "||" } (by decide) (by decide) (by decide)
     (by decide)⟩

/-! ## Round trip of the wire format -/

theorem jsonExpect_append (lit rest : List Char) : jsonExpect lit (lit ++ rest) = some rest := by
  induction lit with
  | nil => cases rest <;> rfl
  | cons e es ih => simp [jsonExpect, ih]

theorem jsonReadString_escape (s rest : List Char) :
    jsonReadString false (jsonEscape s ++ quoteChar :: rest) = some (s, rest) := by
  induction s with
  | nil => simp [jsonEscape, jsonReadString]
  | cons c cs ih =>
    have hq : backslashChar ≠ quoteChar := by decide
    by_cases h : c = quoteChar ∨ c = backslashChar
    · simp [jsonEscape, jsonReadString, h, hq, ih]
    · have h1 : ¬ c = quoteChar := fun e => h (Or.inl e)
      have h2 : ¬ c = backslashChar := fun e => h (Or.inr e)
      simp [jsonEscape, jsonReadString, h1, h2, ih]

theorem jsonReadField_quote (lead : Char) (key s : String) (rest : List Char) :
    jsonReadField lead key (jsonField lead key ++ jsonQuote s ++ rest) = some (s, rest) := by
  have e : jsonField lead key ++ jsonQuote s ++ rest =
      (jsonField lead key ++ [quoteChar]) ++ (jsonEscape s.data ++ quoteChar :: rest) := by
    simp [jsonQuote]
  rw [e]
  unfold jsonReadField
  rw [jsonExpect_append]
  simp [jsonReadString_escape]

theorem jsonUnmarshal_jsonMarshal (msg : Message) :
    jsonUnmarshal (jsonMarshal msg) = some msg := by
  unfold jsonUnmarshal jsonMarshal
  simp only [jsonReadField_quote]
  simp

/-- C12: decoding the serialization of a message succeeds and gives back the same sender,
type and message; consequently, for a payload that decodes to a Ping, the payload of the
agent's one publish call decodes to a Pong of that agent whose message field is the Ping's
message field. -/
theorem wire_format_round_trip (msg : Message) :
    jsonUnmarshal (jsonMarshal msg) = some msg ∧
    ∀ (render : Time → String) (publish : String → String → Option String) (a : Agent)
      (payload : String) (ping : Message), jsonUnmarshal payload = some ping →
      ping.MsgType = PulseMessagePing →
      ∃ reply, published (Agent.processMessage (jsonExtern render) publish a payload) =
          [(a.pulseTopic, reply)] ∧
        jsonUnmarshal reply =
          some { Sender := a.Name, MsgType := PulseMessagePong, Message := ping.Message } := by
  refine ⟨jsonUnmarshal_jsonMarshal msg, ?_⟩
  intro render publish a payload ping hd hp
  refine ⟨jsonMarshal { Sender := a.Name, MsgType := PulseMessagePong, Message := ping.Message },
    ?_, jsonUnmarshal_jsonMarshal _⟩
  have hd2 : (jsonExtern render).unmarshal payload = some ping := hd
  simp only [Agent.processMessage, hd2, hp, ne_eq, not_true_eq_false, if_false,
    Agent.sendPong, Agent.sendMessage]
  cases publish a.pulseTopic (marshalBytes (jsonExtern render)
    { Sender := a.Name, MsgType := PulseMessagePong, Message := ping.Message }) <;>
    simp [published, marshalBytes, jsonExtern]

/-! ## The keys of the result map -/

theorem GoMap.keys_set {V : Type} (m : GoMap V) (k : String) (v : V) :
    GoMap.keys (GoMap.set m k v) = if k ∈ GoMap.keys m then GoMap.keys m
      else GoMap.keys m ++ [k] := by
  induction m with
  | nil => simp [GoMap.set, GoMap.keys]
  | cons e rest ih =>
    obtain ⟨k1, v1⟩ := e
    have ih2 : List.map Prod.fst (GoMap.set rest k v) =
        if k ∈ List.map Prod.fst rest then List.map Prod.fst rest
        else List.map Prod.fst rest ++ [k] := ih
    by_cases h : k1 = k
    · subst h
      simp [GoMap.set, GoMap.keys]
    · have h2 : ¬ k = k1 := fun e => h e.symm
      by_cases hr : k ∈ List.map Prod.fst rest
      · simp only [GoMap.set, GoMap.keys, h, if_false, List.map_cons, ih2, hr, if_true,
          List.mem_cons, or_true]
      · simp only [GoMap.set, GoMap.keys, h, if_false, List.map_cons, ih2, hr, List.mem_cons,
          h2, or_self, List.cons_append]

theorem GoMap.mem_set {V : Type} (m : GoMap V) (k : String) (v : V) (e : String × V)
    (h : e ∈ GoMap.set m k v) : e = (k, v) ∨ e ∈ m := by
  induction m with
  | nil => simpa [GoMap.set] using h
  | cons e1 rest ih =>
    obtain ⟨k1, v1⟩ := e1
    by_cases h1 : k1 = k
    · simp only [GoMap.set, h1, if_true, List.mem_cons] at h
      rcases h with h | h
      · exact Or.inl h
      · exact Or.inr (List.mem_cons_of_mem _ h)
    · simp only [GoMap.set, h1, if_false, List.mem_cons] at h
      rcases h with h | h
      · exact Or.inr (h ▸ List.mem_cons_self _ _)
      · rcases ih h with h2 | h2
        · exact Or.inl h2
        · exact Or.inr (List.mem_cons_of_mem _ h2)

theorem GoMap.mem_of_lookup {V : Type} (m : GoMap V) (k : String) (v : V)
    (h : GoMap.lookup m k = some v) : (k, v) ∈ m := by
  induction m with
  | nil => simp [GoMap.lookup] at h
  | cons e rest ih =>
    obtain ⟨k1, v1⟩ := e
    by_cases h1 : k1 = k
    · subst h1
      simp only [GoMap.lookup, if_true, Option.some.injEq] at h
      subst h
      exact List.mem_cons_self _ _
    · simp only [GoMap.lookup, h1, if_false] at h
      exact List.mem_cons_of_mem _ (ih h)

theorem GoMap.lookup_of_mem {V : Type} (m : GoMap V) (k : String) (v : V)
    (hn : (GoMap.keys m).Nodup) (h : (k, v) ∈ m) : GoMap.lookup m k = some v := by
  induction m with
  | nil => exact absurd h (List.not_mem_nil _)
  | cons e rest ih =>
    obtain ⟨k1, v1⟩ := e
    have hn2 : k1 ∉ List.map Prod.fst rest ∧ (List.map Prod.fst rest).Nodup := by
      simpa [GoMap.keys] using hn
    rcases List.mem_cons.1 h with h1 | h1
    · have e1 : k1 = k := (congrArg Prod.fst h1).symm
      have e2 : v1 = v := (congrArg Prod.snd h1).symm
      simp [GoMap.lookup, e1, e2]
    · have hk : k ∈ List.map Prod.fst rest := List.mem_map.2 ⟨(k, v), h1, rfl⟩
      have h2 : ¬ k1 = k := fun e => hn2.1 (e ▸ hk)
      simp only [GoMap.lookup, h2, if_false]
      exact ih hn2.2 h1

theorem GoMap.lookup_of_mem_keys {V : Type} (m : GoMap V) (k : String)
    (h : k ∈ GoMap.keys m) : ∃ v, GoMap.lookup m k = some v := by
  have hc := (GoMap.contains_iff_mem_keys m k).2 h
  unfold GoMap.contains at hc
  exact Option.isSome_iff_exists.1 hc

theorem GoMap.set_resultsInv (names : List String) (results : GoMap AgentResult) (k : String)
    (v : AgentResult) (hk : k ∈ names) (hv : v.Name = k) (h : ResultsInv names results) :
    ResultsInv names (GoMap.set results k v) := by
  obtain ⟨h1, h2, h3⟩ := h
  refine ⟨?_, ?_, ?_⟩
  · rw [GoMap.keys_set]
    split
    · exact h1
    · rename_i hnot
      rw [List.nodup_append]
      exact ⟨h1, by simp, by simpa using hnot⟩
  · intro j
    rw [GoMap.keys_set]
    split
    · exact h2 j
    · constructor
      · intro hj
        rcases List.mem_append.1 hj with hj | hj
        · exact (h2 j).1 hj
        · rw [List.mem_singleton.1 hj]; exact hk
      · intro hj
        exact List.mem_append_left _ ((h2 j).2 hj)
  · intro e he
    rcases GoMap.mem_set results k v e he with h4 | h4
    · rw [h4]; exact hv
    · exact h3 e h4

theorem ResultsInv.name_of_mem (names : List String) (results : GoMap AgentResult) (n : String)
    (h : ResultsInv names results) (hn : n ∈ names) :
    (GoMap.getD results n AgentResult.zero).Name = n := by
  obtain ⟨v, hv⟩ := GoMap.lookup_of_mem_keys results n ((h.2.1 n).2 hn)
  rw [GoMap.getD_of_lookup results n AgentResult.zero v hv]
  exact h.2.2 (n, v) (GoMap.mem_of_lookup results n v hv)

/-- One iteration of the loop of `checkAgents` either leaves the result map alone or assigns,
under the visited name, a record that keeps the name field read there. -/
theorem checkAgent_results_cases (waitRoom : GoMap Time) (s : CheckState) (n : String) :
    (checkAgent waitRoom s n).results = s.results ∨
      ∃ v, v.Name = (GoMap.getD s.results n AgentResult.zero).Name ∧
        (checkAgent waitRoom s n).results = GoMap.set s.results n v := by
  unfold checkAgent
  by_cases hw : GoMap.contains waitRoom n = true
  · right
    refine ⟨{ GoMap.getD s.results n AgentResult.zero with
      Active := true, LastSeen := GoMap.getD waitRoom n zeroTime }, rfl, ?_⟩
    by_cases ha : (GoMap.getD s.results n AgentResult.zero).Active = true <;> simp [hw, ha]
  · by_cases ha : (GoMap.getD s.results n AgentResult.zero).Active = true
    · right
      exact ⟨{ GoMap.getD s.results n AgentResult.zero with Active := false }, rfl,
        by simp [hw, ha]⟩
    · left
      simp [hw, ha]

theorem checkAgentsLoop_resultsInv (waitRoom : GoMap Time) (all names : List String)
    (s : CheckState) (hsub : ∀ n ∈ names, n ∈ all) (h : ResultsInv all s.results) :
    ResultsInv all (checkAgentsLoop waitRoom names s).results := by
  induction names generalizing s with
  | nil => exact h
  | cons a rest ih =>
    rw [checkAgentsLoop]
    apply ih _ (fun n hn => hsub n (List.mem_cons_of_mem _ hn))
    have ha : a ∈ all := hsub a (List.mem_cons_self _ _)
    rcases checkAgent_results_cases waitRoom s a with h1 | ⟨v, hv, h1⟩
    · rw [h1]; exact h
    · rw [h1]
      exact GoMap.set_resultsInv all s.results a v ha
        (hv.trans (ResultsInv.name_of_mem all s.results a h ha)) h

theorem initResults_resultsInv (all names : List String) (res : GoMap AgentResult)
    (hsub : ∀ n ∈ names, n ∈ all) (h : ResultsInv all res) :
    ResultsInv all (initResults names res) := by
  induction names generalizing res with
  | nil => exact h
  | cons a rest ih =>
    rw [initResults]
    exact ih _ (fun n hn => hsub n (List.mem_cons_of_mem _ hn))
      (GoMap.set_resultsInv all res a _ (hsub a (List.mem_cons_self _ _)) rfl h)

theorem initResults_keys (names : List String) (res : GoMap AgentResult) (k : String) :
    k ∈ GoMap.keys (initResults names res) ↔ k ∈ GoMap.keys res ∨ k ∈ names := by
  induction names generalizing res with
  | nil => simp [initResults]
  | cons a rest ih =>
    rw [initResults, ih, GoMap.keys_set]
    by_cases ha : a ∈ GoMap.keys res
    · simp only [ha, if_true, List.mem_cons]
      constructor
      · rintro (h | h)
        · exact Or.inl h
        · exact Or.inr (Or.inr h)
      · rintro (h | h | h)
        · exact Or.inl h
        · exact Or.inl (h ▸ ha)
        · exact Or.inr h
    · simp only [ha, if_false, List.mem_append, List.mem_singleton, List.mem_cons]
      tauto

theorem initResults_nodup (names : List String) (res : GoMap AgentResult)
    (h : (GoMap.keys res).Nodup) : (GoMap.keys (initResults names res)).Nodup := by
  induction names generalizing res with
  | nil => exact h
  | cons a rest ih =>
    rw [initResults]
    apply ih
    rw [GoMap.keys_set]
    split
    · exact h
    · rename_i hnot
      rw [List.nodup_append]
      exact ⟨h, by simp, by simpa using hnot⟩

theorem initResults_entries (names : List String) (res : GoMap AgentResult)
    (h : ∀ e ∈ res, e.2 = { Name := e.1, Active := true, LastSeen := zeroTime }) :
    ∀ e ∈ initResults names res,
      e.2 = { Name := e.1, Active := true, LastSeen := zeroTime } := by
  induction names generalizing res with
  | nil => exact h
  | cons a rest ih =>
    rw [initResults]
    apply ih
    intro e he
    rcases GoMap.mem_set res a _ e he with h1 | h1
    · rw [h1]
    · exact h e h1

theorem NewMonitor_resultsInv (names : List String) (conf : List MonitorConfig) :
    ResultsInv names (NewMonitor names conf).results := by
  refine ⟨initResults_nodup names [] (by simp [GoMap.keys]), ?_, ?_⟩
  · intro k
    show k ∈ GoMap.keys (initResults names []) ↔ k ∈ names
    rw [initResults_keys]
    simp [GoMap.keys]
  · intro e he
    have := initResults_entries names [] (by simp) e he
    rw [this]

theorem step_resultsInv (x : Extern) (names : List String) (m : Monitor) (op : Op)
    (hn : m.agentNames = names) (h : ResultsInv names m.results) :
    ResultsInv names (step x m op).1.results := by
  cases op with
  | ping now =>
    show ResultsInv names (pingAgents x m now).1.results
    rw [(pingAgents_frame x m now).1]; exact h
  | message payload now =>
    show ResultsInv names (processMessage x m payload now).1.results
    rw [(processMessage_frame x m payload now).1]; exact h
  | check =>
    show ResultsInv names (checkAgentsLoop m.agentsWaitRoom m.agentNames _).results
    rw [hn]
    exact checkAgentsLoop_resultsInv _ names names _ (fun n hn => hn) h

theorem run_resultsInv (x : Extern) (names : List String) (m : Monitor) (ops : List Op)
    (hn : m.agentNames = names) (h : ResultsInv names m.results) :
    ResultsInv names (run x m ops).1.results := by
  induction ops generalizing m with
  | nil => exact h
  | cons op rest ih =>
    exact ih (step x m op).1 ((step_agentNames x m op).trans hn)
      (step_resultsInv x names m op hn h)

/-- C18: in every state reached from `NewMonitor` by any sequence of `pingAgents`,
`processMessage` and `checkAgents`, the keys of the result map are exactly the configured agent
names, each key occurs once, and every record carries its key as name. -/
theorem records_never_created_or_deleted (x : Extern) (names : List String)
    (conf : List MonitorConfig) (ops : List Op) :
    (∀ k, k ∈ GoMap.keys (run x (NewMonitor names conf) ops).1.results ↔ k ∈ names) ∧
    (GoMap.keys (run x (NewMonitor names conf) ops).1.results).Nodup ∧
    (∀ e ∈ (run x (NewMonitor names conf) ops).1.results, e.2.Name = e.1) ∧
    (run x (NewMonitor names conf) ops).1.agentNames = names := by
  obtain ⟨h1, h2, h3⟩ :=
    run_resultsInv x names (NewMonitor names conf) ops rfl (NewMonitor_resultsInv names conf)
  exact ⟨h2, h1, h3, run_agentNames x _ ops⟩

/-! ## The accessors -/

theorem GetResultsLoop_eq (res : GoMap AgentResult) (acc : List AgentResult) :
    GetResultsLoop res acc = acc ++ res.map Prod.snd := by
  induction res generalizing acc with
  | nil => simp [GetResultsLoop]
  | cons e rest ih =>
    obtain ⟨k, r⟩ := e
    simp [GetResultsLoop, ih]

theorem GetLostAgentResultsLoop_eq (res : GoMap AgentResult) (acc : List AgentResult) :
    GetLostAgentResultsLoop res acc =
      acc ++ (res.map Prod.snd).filter (fun r => !r.Active) := by
  induction res generalizing acc with
  | nil => simp [GetLostAgentResultsLoop]
  | cons e rest ih =>
    obtain ⟨k, r⟩ := e
    by_cases h : r.Active = true <;> simp [GetLostAgentResultsLoop, ih, h]

theorem GetFoundAgentResultsLoop_eq (res : GoMap AgentResult) (acc : List AgentResult) :
    GetFoundAgentResultsLoop res acc =
      acc ++ (res.map Prod.snd).filter (fun r => r.Active) := by
  induction res generalizing acc with
  | nil => simp [GetFoundAgentResultsLoop]
  | cons e rest ih =>
    obtain ⟨k, r⟩ := e
    by_cases h : r.Active = true <;> simp [GetFoundAgentResultsLoop, ih, h]

theorem GetResults_eq (m : Monitor) : GetResults m = m.results.map Prod.snd := by
  simp [GetResults, GetResultsLoop_eq]

theorem GetLostAgentResults_eq (m : Monitor) :
    GetLostAgentResults m = (GetResults m).filter (fun r => !r.Active) := by
  simp [GetLostAgentResults, GetLostAgentResultsLoop_eq, GetResults_eq]

theorem GetFoundAgentResults_eq (m : Monitor) :
    GetFoundAgentResults m = (GetResults m).filter (fun r => r.Active) := by
  simp [GetFoundAgentResults, GetFoundAgentResultsLoop_eq, GetResults_eq]

theorem GoMap.map_getD_keys (res : GoMap AgentResult) (h : (GoMap.keys res).Nodup) :
    (GoMap.keys res).map (fun k => GoMap.getD res k AgentResult.zero) = res.map Prod.snd := by
  have key : ∀ e ∈ res, GoMap.getD res e.1 AgentResult.zero = e.2 := by
    intro e he
    exact GoMap.getD_of_lookup res e.1 AgentResult.zero e.2
      (GoMap.lookup_of_mem res e.1 e.2 h he)
  unfold GoMap.keys
  rw [List.map_map]
  exact List.map_congr_left key

/-- C16: `GetFoundAgentResults` is the records of `GetResults` with `Active = true`,
`GetLostAgentResults` those with `Active = false`; together they are `GetResults` up to order,
each record of `GetResults` is in exactly one of the two, and `GetResults` holds, for each key
of the result map, the record stored under it, once. -/
theorem accessors_are_consistent_snapshots (m : Monitor)
    (hkeys : (GoMap.keys m.results).Nodup) :
    GetFoundAgentResults m = (GetResults m).filter (fun r => r.Active) ∧
    GetLostAgentResults m = (GetResults m).filter (fun r => !r.Active) ∧
    (GetFoundAgentResults m ++ GetLostAgentResults m).Perm (GetResults m) ∧
    (∀ r ∈ GetResults m, (r ∈ GetFoundAgentResults m ∧ r ∉ GetLostAgentResults m) ∨
      (r ∉ GetFoundAgentResults m ∧ r ∈ GetLostAgentResults m)) ∧
    GetResults m = (GoMap.keys m.results).map (fun k => GoMap.getD m.results k AgentResult.zero) ∧
    (GetResults m).length = (GoMap.keys m.results).length := by
  refine ⟨GetFoundAgentResults_eq m, GetLostAgentResults_eq m, ?_, ?_, ?_, ?_⟩
  · rw [GetFoundAgentResults_eq, GetLostAgentResults_eq]
    exact List.filter_append_perm (fun r => r.Active) (GetResults m)
  · intro r hr
    rw [GetFoundAgentResults_eq, GetLostAgentResults_eq]
    by_cases ha : r.Active = true
    · left; simp [List.mem_filter, hr, ha]
    · right; simp [List.mem_filter, hr, ha]
  · rw [GetResults_eq, GoMap.map_getD_keys m.results hkeys]
  · simp [GetResults_eq, GoMap.keys]

/-- Witness of C16: `sampleState`, with one inactive and one active record. -/
theorem accessors_are_consistent_snapshots_witness :
    GetFoundAgentResults sampleState = [{ Name := "b", Active := true, LastSeen := 4 }] ∧
    GetLostAgentResults sampleState = [{ Name := "a", Active := false, LastSeen := 3 }] ∧
    (GetResults sampleState).length = (GoMap.keys sampleState.results).length :=
  ⟨(accessors_are_consistent_snapshots sampleState (by decide)).1.trans (by decide),
   (accessors_are_consistent_snapshots sampleState (by decide)).2.1.trans (by decide),
   (accessors_are_consistent_snapshots sampleState (by decide)).2.2.2.2.2⟩

/-! ## The optimistic initial state -/

theorem step_results_of_not_check (x : Extern) (m : Monitor) (op : Op)
    (h : op.isCheck = false) : (step x m op).1.results = m.results := by
  cases op with
  | ping now => exact (pingAgents_frame x m now).1
  | message payload now => exact (processMessage_frame x m payload now).1
  | check => exact absurd h (by simp [Op.isCheck])

theorem run_results_of_no_check (x : Extern) (m : Monitor) (ops : List Op)
    (h : ∀ op ∈ ops, op.isCheck = false) : (run x m ops).1.results = m.results := by
  induction ops generalizing m with
  | nil => rfl
  | cons op rest ih =>
    show (run x (step x m op).1 rest).1.results = m.results
    rw [ih _ (fun o ho => h o (List.mem_cons_of_mem _ ho)),
      step_results_of_not_check x m op (h op (List.mem_cons_self _ _))]

theorem NewMonitor_entries (names : List String) (conf : List MonitorConfig) :
    ∀ e ∈ (NewMonitor names conf).results,
      e.2 = { Name := e.1, Active := true, LastSeen := zeroTime } :=
  initResults_entries names [] (by simp)

theorem NewMonitor_lost_empty (names : List String) (conf : List MonitorConfig) :
    GetLostAgentResults (NewMonitor names conf) = [] := by
  rw [GetLostAgentResults_eq, GetResults_eq, List.filter_eq_nil_iff]
  intro r hr
  obtain ⟨e, he, her⟩ := List.mem_map.1 hr
  have := NewMonitor_entries names conf e he
  rw [← her, this]
  simp

/-- C13: `NewMonitor` stores, for each configured name, the record with that name,
`Active = true` and the zero `LastSeen`; every stored record is of this form under a configured
name, each key once. Hence `GetLostAgentResults` is empty on the fresh monitor, and it is still
empty after any sequence of `pingAgents` and `processMessage` calls. -/
theorem NewMonitor_optimistic_initial_state (x : Extern) (names : List String)
    (conf : List MonitorConfig) (ops : List Op) (hops : ∀ op ∈ ops, op.isCheck = false) :
    (∀ n ∈ names, GoMap.lookup (NewMonitor names conf).results n =
      some { Name := n, Active := true, LastSeen := zeroTime }) ∧
    (∀ e ∈ (NewMonitor names conf).results,
      e.1 ∈ names ∧ e.2 = { Name := e.1, Active := true, LastSeen := zeroTime }) ∧
    (GoMap.keys (NewMonitor names conf).results).Nodup ∧
    GetLostAgentResults (NewMonitor names conf) = [] ∧
    GetLostAgentResults (run x (NewMonitor names conf) ops).1 = [] := by
  obtain ⟨h1, h2, _⟩ := NewMonitor_resultsInv names conf
  refine ⟨?_, ?_, h1, NewMonitor_lost_empty names conf, ?_⟩
  · intro n hn
    obtain ⟨v, hv⟩ := GoMap.lookup_of_mem_keys _ n ((h2 n).2 hn)
    rw [hv]
    exact congrArg some (NewMonitor_entries names conf (n, v) (GoMap.mem_of_lookup _ n v hv))
  · intro e he
    exact ⟨(h2 e.1).1 (List.mem_map.2 ⟨e, he, rfl⟩), NewMonitor_entries names conf e he⟩
  · have hr := run_results_of_no_check x (NewMonitor names conf) ops hops
    rw [GetLostAgentResults_eq, GetResults_eq, hr, ← GetResults_eq, ← GetLostAgentResults_eq]
    exact NewMonitor_lost_empty names conf

/-- Witness of C13: agents `a`, `b` and `a` again; a ping and two Pongs, no check. -/
theorem NewMonitor_optimistic_initial_state_witness :
    GoMap.lookup (NewMonitor ["a", "b", "a"] []).results "b" =
      some { Name := "b", Active := true, LastSeen := zeroTime } ∧
    GetLostAgentResults (run sampleExtern (NewMonitor ["a", "b", "a"] [])
      [Op.ping 2, Op.message "pong-a" 3, Op.message "stale-a" 4]).1 = [] :=
  ⟨(NewMonitor_optimistic_initial_state sampleExtern ["a", "b", "a"] []
      [Op.ping 2, Op.message "pong-a" 3, Op.message "stale-a" 4] (by decide)).1 "b" (by decide),
   (NewMonitor_optimistic_initial_state sampleExtern ["a", "b", "a"] []
      [Op.ping 2, Op.message "pong-a" 3, Op.message "stale-a" 4] (by decide)).2.2.2.2⟩

/-! ## Idempotence of `checkAgents` -/

theorem GoMap.lookup_of_getD_active (results : GoMap AgentResult) (n : String)
    (h : (GoMap.getD results n AgentResult.zero).Active = true) :
    GoMap.lookup results n = some (GoMap.getD results n AgentResult.zero) := by
  unfold GoMap.getD at h ⊢
  cases hl : GoMap.lookup results n with
  | none =>
    rw [hl] at h
    exact absurd h (by simp [AgentResult.zero])
  | some v => rfl

/-- An iteration on a name whose record already agrees with the wait-room changes nothing. -/
theorem checkAgent_fixed (waitRoom : GoMap Time) (s : CheckState) (n : String)
    (ha : (GoMap.getD s.results n AgentResult.zero).Active = GoMap.contains waitRoom n)
    (hl : GoMap.contains waitRoom n = true →
      (GoMap.getD s.results n AgentResult.zero).LastSeen = GoMap.getD waitRoom n zeroTime) :
    checkAgent waitRoom s n = s := by
  unfold checkAgent
  by_cases hw : GoMap.contains waitRoom n = true
  · have hact : (GoMap.getD s.results n AgentResult.zero).Active = true := by rw [ha, hw]
    have hrec : ({ GoMap.getD s.results n AgentResult.zero with
        Active := true, LastSeen := GoMap.getD waitRoom n zeroTime } : AgentResult) =
        GoMap.getD s.results n AgentResult.zero := by
      rw [← hl hw, ← hact]
    have hset : GoMap.set s.results n (GoMap.getD s.results n AgentResult.zero) = s.results :=
      (GoMap.set_eq_self_iff s.results n _).2 (GoMap.lookup_of_getD_active s.results n hact)
    simp only [hw, Bool.not_true, Bool.false_eq_true, if_false, hrec, hset, hact]
  · have hw2 : GoMap.contains waitRoom n = false := by simpa using hw
    have hact : (GoMap.getD s.results n AgentResult.zero).Active = false := by rw [ha, hw2]
    simp [hw2, hact]

theorem checkAgentsLoop_fixed (waitRoom : GoMap Time) (names : List String) (s : CheckState)
    (h : ∀ n ∈ names,
      (GoMap.getD s.results n AgentResult.zero).Active = GoMap.contains waitRoom n ∧
      (GoMap.contains waitRoom n = true →
        (GoMap.getD s.results n AgentResult.zero).LastSeen = GoMap.getD waitRoom n zeroTime)) :
    checkAgentsLoop waitRoom names s = s := by
  induction names with
  | nil => rfl
  | cons a rest ih =>
    rw [checkAgentsLoop,
      checkAgent_fixed waitRoom s a (h a (List.mem_cons_self _ _)).1
        (h a (List.mem_cons_self _ _)).2]
    exact ih (fun n hn => h n (List.mem_cons_of_mem _ hn))

/-- C17: running `checkAgents` a second time right after the first changes nothing in the
monitor state (the agent records are those of the first run) and emits no notification. -/
theorem checkAgents_idempotent (m : Monitor) :
    checkAgents (checkAgents m).1 = ((checkAgents m).1, []) ∧
    (checkAgents (checkAgents m).1).1.results = (checkAgents m).1.results ∧
    lostBatches (checkAgents (checkAgents m).1).2 = [] ∧
    foundBatches (checkAgents (checkAgents m).1).2 = [] := by
  have hfix : checkAgentsRun (checkAgents m).1 =
      { results := (checkAgents m).1.results, losts := [], founds := [] } := by
    unfold checkAgentsRun
    apply checkAgentsLoop_fixed
    intro n hn
    have hn2 : n ∈ m.agentNames := hn
    have hw : (checkAgents m).1.agentsWaitRoom = m.agentsWaitRoom := rfl
    rw [hw]
    show (GoMap.getD (checkAgents m).1.results n AgentResult.zero).Active = _ ∧ (_ →
      (GoMap.getD (checkAgents m).1.results n AgentResult.zero).LastSeen = _)
    rw [checkAgents_getD, if_pos hn2]
    refine ⟨reconciled_Active _ _ _, ?_⟩
    intro hc
    simp [reconciled, hc]
  have h1 : checkAgents (checkAgents m).1 = ((checkAgents m).1, []) := by
    show (({ (checkAgents m).1 with results := (checkAgentsRun (checkAgents m).1).results },
      (if (checkAgentsRun (checkAgents m).1).losts.length > 0 then
        [Event.LostEvent (checkAgentsRun (checkAgents m).1).losts] else []) ++
      (if (checkAgentsRun (checkAgents m).1).founds.length > 0 then
        [Event.FoundEvent (checkAgentsRun (checkAgents m).1).founds] else [])) :
        Monitor × List Event) = _
    rw [hfix]
    rfl
  refine ⟨h1, ?_, ?_, ?_⟩ <;> rw [h1] <;> rfl

/-! ## The life of the wait-room -/

/-- C19, as stated, fails, with the wire format as codec and instants rendered as strokes.
On a fresh monitor for `a` and `b`, after a ping at instant 2, the Pong of `a` received at 3
and `checkAgents`, the wait-room still holds `a`; a Pong of `b` with the same token processed
then, at instant 5, adds `b`. And on the fresh monitor, before any ping, a Pong of `a` whose
message field is the rendering of the zero instant is added to the empty wait-room. -/
theorem waitRoom_outlives_reconciliation :
    (run (jsonExtern strokes) (NewMonitor ["a", "b"] [])
      [Op.ping 2,
       Op.message "\x7b\"sender\":\"a\",\"type\":\"pong\",\"message\":\"||\"\x7d" 3,
       Op.check]).1.agentsWaitRoom = [("a", 3)] ∧
    (run (jsonExtern strokes) (NewMonitor ["a", "b"] [])
      [Op.ping 2,
       Op.message "\x7b\"sender\":\"a\",\"type\":\"pong\",\"message\":\"||\"\x7d" 3,
       Op.check,
       Op.message "\x7b\"sender\":\"b\",\"type\":\"pong\",\"message\":\"||\"\x7d" 5
      ]).1.agentsWaitRoom = [("a", 3), ("b", 5)] ∧
    (NewMonitor ["a", "b"] []).agentsWaitRoom = [] ∧
    (processMessage (jsonExtern strokes) (NewMonitor ["a", "b"] [])
      "\x7b\"sender\":\"a\",\"type\":\"pong\",\"message\":\"\"\x7d" 1).1.agentsWaitRoom
      = [("a", 1)] := by
  decide

theorem processMessage_waitRoom_keys (x : Extern) (m : Monitor) (payload : String) (now : Time)
    (k : String) (h : k ∈ GoMap.keys (processMessage x m payload now).1.agentsWaitRoom) :
    k ∈ GoMap.keys m.agentsWaitRoom ∨
      ∃ msg, x.unmarshal payload = some msg ∧ msg.MsgType = PulseMessagePong ∧
        msg.Sender = k ∧ k ∈ m.agentNames ∧ msg.Message = x.render m.lastPing := by
  by_cases hacc : ∃ msg, x.unmarshal payload = some msg ∧ msg.MsgType = PulseMessagePong ∧
      msg.Sender ∈ m.agentNames ∧ msg.Message = x.render m.lastPing
  · obtain ⟨msg, hd, hp, hs, ht⟩ := hacc
    rw [processMessage_accept x m payload now msg hd hp hs ht] at h
    have h2 : k ∈ GoMap.keys (GoMap.set m.agentsWaitRoom msg.Sender now) := h
    rw [GoMap.keys_set] at h2
    split at h2
    · exact Or.inl h2
    · rcases List.mem_append.1 h2 with h3 | h3
      · exact Or.inl h3
      · have e : k = msg.Sender := List.mem_singleton.1 h3
        exact Or.inr ⟨msg, hd, hp, e.symm, e ▸ hs, ht⟩
  · rw [processMessage_reject x m payload now hacc] at h
    exact Or.inl h

theorem step_waitRoom_keys (x : Extern) (m : Monitor) (op : Op)
    (h : ∀ k ∈ GoMap.keys m.agentsWaitRoom, k ∈ m.agentNames) :
    ∀ k ∈ GoMap.keys (step x m op).1.agentsWaitRoom, k ∈ (step x m op).1.agentNames := by
  intro k hk
  rw [step_agentNames]
  cases op with
  | ping now =>
    rcases pingAgents_waitRoom x m now with e | e
    · have hk2 : k ∈ GoMap.keys (pingAgents x m now).1.agentsWaitRoom := hk
      rw [e] at hk2
      exact absurd hk2 (by simp [GoMap.keys])
    · have hk2 : k ∈ GoMap.keys (pingAgents x m now).1.agentsWaitRoom := hk
      rw [e] at hk2
      exact h k hk2
  | message payload now =>
    rcases processMessage_waitRoom_keys x m payload now k hk with h1 | ⟨_, _, _, _, h1, _⟩
    · exact h k h1
    · exact h1
  | check => exact h k hk

theorem run_waitRoom_keys (x : Extern) (m : Monitor) (ops : List Op)
    (h : ∀ k ∈ GoMap.keys m.agentsWaitRoom, k ∈ m.agentNames) :
    ∀ k ∈ GoMap.keys (run x m ops).1.agentsWaitRoom, k ∈ (run x m ops).1.agentNames := by
  induction ops generalizing m with
  | nil => exact h
  | cons op rest ih => exact ih (step x m op).1 (step_waitRoom_keys x m op h)

theorem GoMap.mem_keys_set_of_mem {V : Type} (m : GoMap V) (k j : String) (v : V)
    (h : j ∈ GoMap.keys m) : j ∈ GoMap.keys (GoMap.set m k v) := by
  rw [GoMap.keys_set]
  split
  · exact h
  · exact List.mem_append_left _ h

/-- Whatever the payload, `processMessage` either leaves the wait-room as it is or assigns, in
it, the receipt time to the sender of an accepted Pong. -/
theorem processMessage_waitRoom_cases (x : Extern) (m : Monitor) (payload : String)
    (now : Time) :
    (processMessage x m payload now).1.agentsWaitRoom = m.agentsWaitRoom ∨
      ∃ msg, x.unmarshal payload = some msg ∧ msg.MsgType = PulseMessagePong ∧
        msg.Sender ∈ m.agentNames ∧ msg.Message = x.render m.lastPing ∧
        (processMessage x m payload now).1.agentsWaitRoom =
          GoMap.set m.agentsWaitRoom msg.Sender now := by
  by_cases hacc : ∃ msg, x.unmarshal payload = some msg ∧ msg.MsgType = PulseMessagePong ∧
      msg.Sender ∈ m.agentNames ∧ msg.Message = x.render m.lastPing
  · obtain ⟨msg, hd, hp, hs, ht⟩ := hacc
    right
    refine ⟨msg, hd, hp, hs, ht, ?_⟩
    rw [processMessage_accept x m payload now msg hd hp hs ht]
  · left
    rw [processMessage_reject x m payload now hacc]

theorem step_keeps_waitRoom_keys (x : Extern) (m : Monitor) (op : Op)
    (hop : op.isPing = false) (k : String) (h : k ∈ GoMap.keys m.agentsWaitRoom) :
    k ∈ GoMap.keys (step x m op).1.agentsWaitRoom := by
  cases op with
  | ping now => exact absurd hop (by simp [Op.isPing])
  | message payload now =>
    show k ∈ GoMap.keys (processMessage x m payload now).1.agentsWaitRoom
    rcases processMessage_waitRoom_cases x m payload now with e | ⟨msg, _, _, _, _, e⟩
    · rw [e]; exact h
    · rw [e]; exact GoMap.mem_keys_set_of_mem _ _ _ _ h
  | check => exact h

theorem run_keeps_waitRoom_keys (x : Extern) (m : Monitor) (ops : List Op)
    (hops : ∀ op ∈ ops, op.isPing = false) (k : String)
    (h : k ∈ GoMap.keys m.agentsWaitRoom) :
    k ∈ GoMap.keys (run x m ops).1.agentsWaitRoom := by
  induction ops generalizing m with
  | nil => exact h
  | cons op rest ih =>
    exact ih (step x m op).1 (fun o ho => hops o (List.mem_cons_of_mem _ ho))
      (step_keeps_waitRoom_keys x m op (hops op (List.mem_cons_self _ _)) k h)

/-- C19, amended: the wait-room is emptied by `pingAgents` only. It is empty on a freshly
constructed monitor and right after every `pingAgents` whose Ping serializes (a `pingAgents`
whose Ping does not serialize leaves it as it is); `checkAgents` leaves it as it is;
`processMessage` either leaves it as it is or, for a Pong of a configured agent whose message
field is the rendering of `lastPing`, assigns the receipt time to the sender's entry, in
whatever state it is called; hence no sequence of calls without a `pingAgents` removes a key,
and the entries of a cycle stay until the next `pingAgents`. In every state reached from
`NewMonitor` the keys are configured agent names, and `processMessage` adds a key only for such
a Pong. -/
theorem waitRoom_emptied_by_ping_only (x : Extern) (names : List String)
    (conf : List MonitorConfig) (ops : List Op) :
    (NewMonitor names conf).agentsWaitRoom = [] ∧
    (∀ (m : Monitor) (now : Time) (s : String),
      x.marshal { Sender := "ping", MsgType := PulseMessagePing, Message := x.render now }
        = Except.ok s → (pingAgents x m now).1.agentsWaitRoom = []) ∧
    (∀ (m : Monitor) (now : Time),
      (pingAgents x m now).1.agentsWaitRoom = [] ∨
        (pingAgents x m now).1.agentsWaitRoom = m.agentsWaitRoom) ∧
    (∀ m : Monitor, (checkAgents m).1.agentsWaitRoom = m.agentsWaitRoom) ∧
    (∀ (m : Monitor) (payload : String) (now : Time),
      (processMessage x m payload now).1.agentsWaitRoom = m.agentsWaitRoom ∨
        ∃ msg, x.unmarshal payload = some msg ∧ msg.MsgType = PulseMessagePong ∧
          msg.Sender ∈ m.agentNames ∧ msg.Message = x.render m.lastPing ∧
          (processMessage x m payload now).1.agentsWaitRoom =
            GoMap.set m.agentsWaitRoom msg.Sender now) ∧
    (∀ (m : Monitor) (later : List Op), (∀ op ∈ later, op.isPing = false) →
      ∀ k ∈ GoMap.keys m.agentsWaitRoom, k ∈ GoMap.keys (run x m later).1.agentsWaitRoom) ∧
    (∀ k ∈ GoMap.keys (run x (NewMonitor names conf) ops).1.agentsWaitRoom, k ∈ names) ∧
    (∀ (m : Monitor) (payload : String) (now : Time) (k : String),
      k ∈ GoMap.keys (processMessage x m payload now).1.agentsWaitRoom →
      k ∈ GoMap.keys m.agentsWaitRoom ∨
        ∃ msg, x.unmarshal payload = some msg ∧ msg.MsgType = PulseMessagePong ∧
          msg.Sender = k ∧ k ∈ m.agentNames ∧ msg.Message = x.render m.lastPing) := by
  refine ⟨rfl, ?_, pingAgents_waitRoom x, fun _ => rfl, processMessage_waitRoom_cases x, ?_, ?_,
    processMessage_waitRoom_keys x⟩
  · intro m now s hm
    rw [pingAgents_ok x m now s hm]
  · intro m later hl k hk
    exact run_keeps_waitRoom_keys x m later hl k hk
  · intro k hk
    have := run_waitRoom_keys x (NewMonitor names conf) ops
      (fun j hj => absurd hj (by simp [NewMonitor, GoMap.keys])) k hk
    rw [run_agentNames] at this
    exact this

/-! ## Bounds on the grace period -/

theorem effectiveConf_cons (c : MonitorConfig) (rest : List MonitorConfig) :
    effectiveConf (c :: rest) =
      { PulseTopic := specPulseTopic c.PulseTopic
        PulseTick := specPulseTick c.PulseTick
        MaxWaitResponse := specMaxWaitResponse c.MaxWaitResponse (specPulseTick c.PulseTick) } := by
  obtain ⟨topic, tick, wait⟩ := c
  simp only [effectiveConf, specPulseTopic, specPulseTick, specMaxWaitResponse, Duration.sub]
  by_cases h1 : topic = "" <;> by_cases h2 : tick = 0 <;>
    simp only [h1, h2, if_true, if_false, one_mul]
  all_goals
    generalize wrap64 (_ - Second) = w
    unfold Duration at *
    split_ifs <;> first
      | rfl
      | (exfalso; omega)

/-- C20: for a first configuration argument with `PulseTick ≥ 0` and `MaxWaitResponse ≥ 0`
(and `PulseTick` an `int64`), the stored configuration has `0 ≤ MaxWaitResponse ≤ PulseTick`,
`PulseTick > 0`, and `MaxWaitResponse < PulseTick` whenever the stored `PulseTick` is at least
1s. The same holds of the configuration stored when no argument is given. -/
theorem NewMonitor_grace_period_bounded (names : List String) (c : MonitorConfig)
    (rest : List MonitorConfig) (h1 : 0 ≤ c.PulseTick) (h2 : 0 ≤ c.MaxWaitResponse)
    (h3 : c.PulseTick < 2 ^ 63) :
    (0 ≤ (NewMonitor names (c :: rest)).conf.MaxWaitResponse ∧
      (NewMonitor names (c :: rest)).conf.MaxWaitResponse ≤
        (NewMonitor names (c :: rest)).conf.PulseTick ∧
      0 < (NewMonitor names (c :: rest)).conf.PulseTick ∧
      (Second ≤ (NewMonitor names (c :: rest)).conf.PulseTick →
        (NewMonitor names (c :: rest)).conf.MaxWaitResponse <
          (NewMonitor names (c :: rest)).conf.PulseTick)) ∧
    (0 ≤ (NewMonitor names []).conf.MaxWaitResponse ∧
      (NewMonitor names []).conf.MaxWaitResponse < (NewMonitor names []).conf.PulseTick ∧
      0 < (NewMonitor names []).conf.PulseTick) := by
  constructor
  · show 0 ≤ (effectiveConf (c :: rest)).MaxWaitResponse ∧
      (effectiveConf (c :: rest)).MaxWaitResponse ≤ (effectiveConf (c :: rest)).PulseTick ∧
      0 < (effectiveConf (c :: rest)).PulseTick ∧
      (Second ≤ (effectiveConf (c :: rest)).PulseTick →
        (effectiveConf (c :: rest)).MaxWaitResponse < (effectiveConf (c :: rest)).PulseTick)
    rw [effectiveConf_cons]
    obtain ⟨topic, tick, wait⟩ := c
    dsimp only at *
    unfold specMaxWaitResponse specPulseTick Duration.sub wrap64 Second
    unfold Duration at *
    by_cases ht : tick = 0
    · subst ht
      simp only [if_true]
      split_ifs <;> omega
    · simp only [ht, if_false]
      split_ifs <;> omega
  · have h : effectiveConf [] =
        { PulseTopic := "pulse", PulseTick := 5 * Second, MaxWaitResponse := 4 * Second } := by
      decide
    show 0 ≤ (effectiveConf []).MaxWaitResponse ∧
      (effectiveConf []).MaxWaitResponse < (effectiveConf []).PulseTick ∧
      0 < (effectiveConf []).PulseTick
    rw [h]
    decide

/-- Witness of C20: a tick of 200ms with no grace period given. -/
theorem NewMonitor_grace_period_bounded_witness :
    0 ≤ (NewMonitor ["agent1", "agent2"]
      [{ PulseTopic := "", PulseTick := 200000000, MaxWaitResponse := 0 }]).conf.MaxWaitResponse ∧
    (NewMonitor ["agent1", "agent2"]
      [{ PulseTopic := "", PulseTick := 200000000, MaxWaitResponse := 0 }]).conf.MaxWaitResponse ≤
    (NewMonitor ["agent1", "agent2"]
      [{ PulseTopic := "", PulseTick := 200000000, MaxWaitResponse := 0 }]).conf.PulseTick :=
  ⟨(NewMonitor_grace_period_bounded ["agent1", "agent2"]
      { PulseTopic := "", PulseTick := 200000000, MaxWaitResponse := 0 } []
      (by decide) (by decide) (by decide)).1.1,
   (NewMonitor_grace_period_bounded ["agent1", "agent2"]
      { PulseTopic := "", PulseTick := 200000000, MaxWaitResponse := 0 } []
      (by decide) (by decide) (by decide)).1.2.1⟩

/-- C9, amended: with `PulseTick = 1s` and `MaxWaitResponse` left at its zero value,
`NewMonitor` stores `PulseTick = 1s` and `MaxWaitResponse = PulseTick - 1s`, that is 0; the
stored `MaxWaitResponse` is `PulseTick` itself when `PulseTick - 1s` is negative, that is for
every tick strictly between 0 and 1s. -/
theorem NewMonitor_clamp_at_one_second (names : List String) (topic : String)
    (rest : List MonitorConfig) :
    (NewMonitor names
      ({ PulseTopic := topic, PulseTick := 1 * Second, MaxWaitResponse := 0 } :: rest)).conf.PulseTick
      = 1 * Second ∧
    (NewMonitor names
      ({ PulseTopic := topic, PulseTick := 1 * Second, MaxWaitResponse := 0 } :: rest)).conf.MaxWaitResponse
      = 1 * Second - 1 * Second ∧
    (NewMonitor names
      ({ PulseTopic := topic, PulseTick := 1 * Second, MaxWaitResponse := 0 } :: rest)).conf.MaxWaitResponse
      = 0 ∧
    ∀ tick : Duration, 0 < tick → tick < Second →
      (NewMonitor names
        ({ PulseTopic := topic, PulseTick := tick, MaxWaitResponse := 0 } :: rest)).conf.MaxWaitResponse
        = tick := by
  have key : ∀ tick : Duration,
      (NewMonitor names
        ({ PulseTopic := topic, PulseTick := tick, MaxWaitResponse := 0 } :: rest)).conf =
      { PulseTopic := specPulseTopic topic, PulseTick := specPulseTick tick,
        MaxWaitResponse := specMaxWaitResponse 0 (specPulseTick tick) } :=
    fun tick => effectiveConf_cons _ rest
  refine ⟨?_, ?_, ?_, ?_⟩
  · rw [key]
    show specPulseTick (1 * Second) = 1 * Second
    decide
  · rw [key]
    show specMaxWaitResponse 0 (specPulseTick (1 * Second)) = 1 * Second - 1 * Second
    decide
  · rw [key]
    show specMaxWaitResponse 0 (specPulseTick (1 * Second)) = 0
    decide
  · intro tick h1 h2
    rw [key]
    show specMaxWaitResponse 0 (specPulseTick tick) = tick
    unfold specMaxWaitResponse specPulseTick Duration.sub wrap64 Second at *
    unfold Duration at *
    have ht : ¬ tick = 0 := by omega
    simp only [ht, if_false]
    split_ifs <;> omega

end PulseMonitor
